import Mathlib

/-!
Verification of the ACCESS profiling-log parsing engine.

This file gives a shallow embedding, in Lean 4, of the core of the
`access-profiling` repository: the metric identity model
(`src/access/profiling/metrics.py`), the shared numeric-coercion helper
(`src/access/profiling/parser.py`), and the concrete parsers
(`fms_parser.py`, `cice5_parser.py`, `um_parser.py`, `esmf_parser.py`,
`cylc_parser.py`).  Python regular expressions are embedded through a
small backtracking matcher over the exact atom sequences appearing in the
source patterns; Python numeric values are embedded as exact integers and
rationals (with explicit infinity for float overflow); Python exceptions
are embedded as an `Except` error type.  Theorems at the end of the file
settle the specification claims against these definitions.
-/

namespace AccessProfiling

/-! ## Python exception taxonomy

Each constructor mirrors one Python exception class raised (or propagated)
by the parsing core. -/

inductive PyErr where
  | valueError (msg : String)
  | assertionError (msg : String)
  | notImplementedError (msg : String)
  | fileNotFoundError
  | typeError
  | indexError
  | attributeError
  | runtimeError (msg : String)
  | zeroDivisionError
  deriving DecidableEq, Repr

/-! ## Python float model

Python floats are IEEE doubles.  The embedding keeps finite values as exact
rationals (the parsed decimal literal value, without binary rounding) and
models overflow explicitly: a decimal literal whose exact magnitude is at
least 2^1024 converts to an infinity, as `float("1e500")` does in Python. -/

inductive PyFloat where
  | finite (q : ℚ)
  | inf
  | negInf
  | nan
  deriving DecidableEq, Repr

/-- IEEE comparison `a < b`: any comparison involving nan is false. -/
def PyFloat.blt : PyFloat → PyFloat → Bool
  | .finite a, .finite b => a < b
  | .finite _, .inf => true
  | .negInf, .finite _ => true
  | .negInf, .inf => true
  | _, _ => false

/-- IEEE addition restricted to the cases the parsers exercise. -/
def PyFloat.add : PyFloat → PyFloat → PyFloat
  | .finite a, .finite b => .finite (a + b)
  | .nan, _ => .nan
  | _, .nan => .nan
  | .inf, .negInf => .nan
  | .negInf, .inf => .nan
  | .inf, _ => .inf
  | _, .inf => .inf
  | .negInf, _ => .negInf
  | _, .negInf => .negInf

/-- Multiplication of a Python float by a Python int (int promoted to float). -/
def PyFloat.mulInt : PyFloat → Int → PyFloat
  | .finite a, n => .finite (a * n)
  | .nan, _ => .nan
  | .inf, n => if n > 0 then .inf else if n < 0 then .negInf else .nan
  | .negInf, n => if n > 0 then .negInf else if n < 0 then .inf else .nan

/-- Division of a Python float by a Python int; division by zero raises
`ZeroDivisionError` as in Python. -/
def PyFloat.divInt : PyFloat → Int → Except PyErr PyFloat
  | _, 0 => .error .zeroDivisionError
  | .finite a, n => .ok (.finite (a / n))
  | .nan, _ => .ok .nan
  | .inf, n => .ok (if n > 0 then .inf else .negInf)
  | .negInf, n => .ok (if n > 0 then .negInf else .inf)

/-! ## Python numeric string conversion

`int(s)` and `float(s)` for ASCII strings: surrounding whitespace is
stripped, an optional sign is accepted, and single underscores may appear
between digits.  `float` additionally accepts a fractional part, an
exponent, and the special words inf/infinity/nan (case-insensitive). -/

def pyWs (c : Char) : Bool :=
  c = ' ' || c = '\t' || c = '\n' || c = '\r' || c = '\x0b' || c = '\x0c'

def dropLeadWs (cs : List Char) : List Char := cs.dropWhile pyWs

def trimWs (cs : List Char) : List Char :=
  ((cs.dropWhile pyWs).reverse.dropWhile pyWs).reverse

def isDigitA (c : Char) : Bool := '0' ≤ c && c ≤ '9'

def digitVal (c : Char) : Nat := c.toNat - '0'.toNat

/-- Parse a run of ASCII digits in which single underscores may separate
digits.  Returns the value, the number of digits, and the rest. -/
def digitsU : List Char → Option (Nat × Nat × List Char)
  | c :: cs =>
    if isDigitA c then
      match digitsUAux cs (digitVal c) 1 with
      | (v, k, rest) => some (v, k, rest)
    else none
  | [] => none
where
  digitsUAux : List Char → Nat → Nat → (Nat × Nat × List Char)
    | c :: cs, acc, k =>
      if isDigitA c then digitsUAux cs (acc * 10 + digitVal c) (k + 1)
      else if c = '_' then
        match cs with
        | d :: cs2 =>
          if isDigitA d then digitsUAux cs2 (acc * 10 + digitVal d) (k + 1)
          else (acc, k, c :: cs)
        | [] => (acc, k, [c])
      else (acc, k, c :: cs)
    | [], acc, k => (acc, k, [])

/-- Parse an optional sign; returns `true` for negative. -/
def parseSign : List Char → (Bool × List Char)
  | '+' :: cs => (false, cs)
  | '-' :: cs => (true, cs)
  | cs => (false, cs)

/-- Python `int(s)` for an ASCII string (base 10). -/
def pyIntOfString? (s : String) : Option Int :=
  let cs := trimWs s.data
  let (neg, cs) := parseSign cs
  match digitsU cs with
  | some (v, _, []) => some (if neg then -(v : Int) else (v : Int))
  | _ => none

def lowerEq (cs : List Char) (word : List Char) : Bool :=
  cs.map Char.toLower = word

/-- Parse the body of a float literal (after the sign): mantissa and
optional exponent.  The exact value is assembled as a fraction of natural
numbers and normalised once, so the parser stays kernel-computable. -/
def floatBody (cs : List Char) : Option ℚ :=
  -- mantissa: digits [. digits?]  or  . digits; value num / 10 ^ k
  let mant : Option (Nat × Nat × List Char) :=
    match digitsU cs with
    | some (ip, _, rest) =>
      match rest with
      | '.' :: rest2 =>
        match digitsU rest2 with
        | some (fp, k, rest3) => some (ip * Nat.pow 10 k + fp, k, rest3)
        | none => some (ip, 0, rest2)
      | _ => some (ip, 0, rest)
    | none =>
      match cs with
      | '.' :: rest2 =>
        match digitsU rest2 with
        | some (fp, k, rest3) => some (fp, k, rest3)
        | none => none
      | _ => none
  match mant with
  | none => none
  | some (num, k, rest) =>
    match rest with
    | [] => some (mkRat num (Nat.pow 10 k))
    | e :: rest2 =>
      if e = 'e' || e = 'E' then
        let (eneg, rest3) := parseSign rest2
        match digitsU rest3 with
        | some (ev, _, []) =>
          some (if eneg then mkRat num (Nat.pow 10 k * Nat.pow 10 ev) else mkRat (num * Nat.pow 10 ev) (Nat.pow 10 k))
        | _ => none
      else none

/-- Python `float(s)` for an ASCII string.  Finite values are kept exact;
magnitudes of at least 2^1024 overflow to infinity. -/
def pyFloatOfString? (s : String) : Option PyFloat :=
  let cs := trimWs s.data
  let (neg, cs) := parseSign cs
  if lowerEq cs "inf".data || lowerEq cs "infinity".data then
    some (if neg then .negInf else .inf)
  else if lowerEq cs "nan".data then some .nan
  else
    match floatBody cs with
    | none => none
    | some q =>
      if q.num ≥ Int.ofNat (Nat.pow 2 1024 * q.den) then
        some (if neg then .negInf else .inf)
      else some (.finite (if neg then -q else q))

/-! ## Python value model and the shared coercion helper -/

inductive PyVal where
  | vInt (n : Int)
  | vFloat (f : PyFloat)
  | vStr (s : String)
  deriving DecidableEq, Repr

/-- `parser._convert_from_string`: try `int(value)`, then `float(value)`,
else return the string unchanged.  All exceptions are swallowed, so the
helper is total. -/
def _convert_from_string (value : String) : PyVal :=
  match pyIntOfString? value with
  | some n => .vInt n
  | none =>
    match pyFloatOfString? value with
    | some f => .vFloat f
    | none => .vStr value

/-- Python `v * 100` for the value domain: numbers scale, a string is
repeated 100 times (Python sequence repetition). -/
def pyMul100 : PyVal → PyVal
  | .vInt n => .vInt (n * 100)
  | .vFloat f => .vFloat (f.mulInt 100)
  | .vStr s => .vStr (String.join (List.replicate 100 s))

/-! ## Python string helpers -/

/-- Python `str.strip()` (ASCII whitespace). -/
def pyStrip (s : String) : String := ⟨trimWs s.data⟩

/-- Python `str.split()` with no argument: whitespace-separated tokens,
empty tokens dropped. -/
def pySplitWs (s : String) : List String := go s.data []
where
  go : List Char → List Char → List String
    | [], acc => if acc.isEmpty then [] else [⟨acc.reverse⟩]
    | c :: cs, acc =>
      if pyWs c then
        if acc.isEmpty then go cs [] else ⟨acc.reverse⟩ :: go cs []
      else go cs (c :: acc)

/-- Split a character list at every newline, keeping empty parts. -/
def splitNlAux : List Char → List Char → List String
  | [], acc => [⟨acc.reverse⟩]
  | c :: cs, acc =>
    if c = '\n' then ⟨acc.reverse⟩ :: splitNlAux cs []
    else splitNlAux cs (c :: acc)

/-- Python `str.split("\n")`: splits at every newline, keeping empty parts. -/
def pySplitNl (s : String) : List String := splitNlAux s.data []

/-- Python `str.splitlines()` for texts whose line terminator is `\n`. -/
def pySplitlines (s : String) : List String :=
  if s.data.isEmpty then []
  else if s.data.getLastD ' ' = '\n' then (pySplitNl s).dropLast
  else pySplitNl s

/-! ## Embedded regular-expression matcher

The source parsers use `re` patterns built from a small set of constructs:
literal text, greedy character-class repetitions, the MULTILINE anchors
`^`/`$`, one negative lookbehind `(?<!\s)`, and non-nested capture groups.
Each source pattern is transcribed into a list of `RAtom`s, and `mtch`
performs Python-style leftmost, greedy, backtracking matching. -/

inductive RAtom where
  | lit (cs : List Char)
  | cset (p : Char → Bool) (lo : Nat) (hi : Option Nat)
  | bol
  | eol
  | nlb (p : Char → Bool)
  | gopen (n : Nat)
  | gclose (n : Nat)

/-- Matcher state: remaining input, previous character, absolute position. -/
structure MState where
  rest : List Char
  prev : Option Char
  pos : Nat

/-- Consume a literal. -/
def litEat : List Char → MState → Option MState
  | [], st => some st
  | c :: cs, st =>
    match st.rest with
    | d :: ds => if c = d then litEat cs ⟨ds, some d, st.pos + 1⟩ else none
    | [] => none

/-- States reachable by consuming `0, 1, …` characters of class `p`
(at most `n`), in order of increasing consumption. -/
def csetStates (p : Char → Bool) : Nat → MState → List MState
  | 0, st => [st]
  | n + 1, st =>
    match st.rest with
    | c :: cs => if p c then st :: csetStates p n ⟨cs, some c, st.pos + 1⟩ else [st]
    | [] => [st]

/-- Backtracking matcher: returns the end position and the recorded group
spans of the first (Python-preference) match of the atom list at the given
state. -/
def mtch : List RAtom → MState → List (Nat × Nat) → List (Nat × Nat × Nat) →
    Option (Nat × List (Nat × Nat × Nat))
  | [], st, _, done => some (st.pos, done)
  | .lit cs :: as, st, pen, done =>
    match litEat cs st with
    | some st2 => mtch as st2 pen done
    | none => none
  | .cset p lo hi :: as, st, pen, done =>
    let lim := match hi with
      | none => st.rest.length
      | some h => min h st.rest.length
    (((csetStates p lim st).drop lo).reverse).findSome? fun st2 => mtch as st2 pen done
  | .bol :: as, st, pen, done =>
    if st.pos = 0 || st.prev = some '\n' then mtch as st pen done else none
  | .eol :: as, st, pen, done =>
    match st.rest with
    | [] => mtch as st pen done
    | c :: _ => if c = '\n' then mtch as st pen done else none
  | .nlb p :: as, st, pen, done =>
    match st.prev with
    | some c => if p c then none else mtch as st pen done
    | none => mtch as st pen done
  | .gopen n :: as, st, pen, done => mtch as st ((n, st.pos) :: pen) done
  | .gclose n :: as, st, pen, done =>
    match pen with
    | (_, b) :: pen2 => mtch as st pen2 ((n, b, st.pos) :: done)
    | [] => none

/-- A match: start, end, and group spans. -/
structure RMatch where
  start : Nat
  stop : Nat
  caps : List (Nat × Nat × Nat)

/-- All start states of a string, by increasing position. -/
def ssAux : List Char → Option Char → Nat → List MState
  | [], prev, pos => [⟨[], prev, pos⟩]
  | c :: cs, prev, pos => ⟨c :: cs, prev, pos⟩ :: ssAux cs (some c) (pos + 1)

/-- `re.search`: the match at the leftmost position where one exists. -/
def research (atoms : List RAtom) (s : List Char) : Option RMatch :=
  (ssAux s none 0).findSome? fun st =>
    (mtch atoms st [] []).map fun r => ⟨st.pos, r.1, r.2⟩

/-- `re.finditer`: successive non-overlapping matches, resuming after each
match (advancing one position past an empty match). -/
def finditAux (atoms : List RAtom) : Nat → List MState → List RMatch
  | 0, _ => []
  | fuel + 1, states =>
    match states.findSome? (fun st =>
        (mtch atoms st [] []).map fun r => RMatch.mk st.pos r.1 r.2) with
    | none => []
    | some m =>
      let next := if m.stop > m.start then m.stop else m.start + 1
      m :: finditAux atoms fuel (states.dropWhile fun st => st.pos < next)

def finditer (atoms : List RAtom) (s : List Char) : List RMatch :=
  finditAux atoms (s.length + 1) (ssAux s none 0)

/-- Text of a group span. -/
def subStr (s : List Char) (b e : Nat) : String := ⟨(s.drop b).take (e - b)⟩

/-- `match.group(n)` (every group of the embedded patterns participates in
any successful match). -/
def grp (s : List Char) (m : RMatch) (n : Nat) : String :=
  match m.caps.find? (fun t => t.1 = n) with
  | some (_, b, e) => subStr s b e
  | none => ""

/-! ## Character classes used by the source patterns -/

def isAlphaA (c : Char) : Bool :=
  ('a' ≤ c && c ≤ 'z') || ('A' ≤ c && c ≤ 'Z')

/-- `.` under DOTALL. -/
def anyC (_ : Char) : Bool := true

/-- `\S`. -/
def nonWsC (c : Char) : Bool := !pyWs c

/-- `[0-9.]`. -/
def digitDotC (c : Char) : Bool := isDigitA c || c = '.'

/-- `[\d\s]`. -/
def digitWsC (c : Char) : Bool := isDigitA c || pyWs c

/-- `\w` (ASCII). -/
def wordC (c : Char) : Bool := isAlphaA c || isDigitA c || c = '_'

/-- FMS region class `[a-zA-Z:()_/\-*&\s]`. -/
def fmsRegionC (c : Char) : Bool :=
  isAlphaA c || c = ':' || c = '(' || c = ')' || c = '_' || c = '/' ||
    c = '-' || c = '*' || c = '&' || pyWs c

/-- UM region tail class `[a-zA-Z:()_/\-*&0-9\s\.]`. -/
def umRegionC (c : Char) : Bool :=
  isAlphaA c || c = ':' || c = '(' || c = ')' || c = '_' || c = '/' ||
    c = '-' || c = '*' || c = '&' || isDigitA c || pyWs c || c = '.'

/-! ## Metric model (`metrics.py`)

`ProfilingMetric` defines no `__eq__`/`__hash__`, so Python compares metric
objects (and metric dictionary keys) by object identity.  The embedding
makes identity explicit through an allocation id `oid`: two separately
constructed metrics carry distinct `oid`s even when all their fields
coincide, and every dictionary operation on metric keys compares `oid`s
only. -/

structure ProfilingMetric where
  oid : Nat
  name : String
  units : String
  description : String
  deriving DecidableEq, Repr

/-- The validating constructor `ProfilingMetric.__init__`: empty or
whitespace-only name or description raises `ValueError`. -/
def mkProfilingMetric (oid : Nat) (name units description : String) :
    Except PyErr ProfilingMetric :=
  if pyStrip name = "" then .error (.valueError "Metric name cannot be empty!")
  else if pyStrip description = "" then .error (.valueError "Metric description cannot be empty!")
  else .ok ⟨oid, name, units, description⟩

/-- The pre-declared metric catalogue of `metrics.py`, plus the extra
metrics declared at module level in `fms_parser.py` (`grain`) and
`esmf_parser.py` (`pets`, `pes`).  Each module-level construction is one
allocation, hence one distinct `oid`. -/
def count : ProfilingMetric := ⟨1, "count", "dimensionless", "Number of calls to region"⟩

def tmin : ProfilingMetric := ⟨2, "minimum time", "second", "Minimum time spent in region"⟩

def tmax : ProfilingMetric := ⟨3, "maximum time", "second", "Maximum time spent in region"⟩

def pemin : ProfilingMetric := ⟨4, "minimum PE", "dimensionless", "Processing element where minimum time was recorded"⟩

def pemax : ProfilingMetric := ⟨5, "maximum PE", "dimensionless", "Processing element where maximum time was recorded"⟩

def tavg : ProfilingMetric := ⟨6, "average time", "second", "Average time spent in region"⟩

def tmed : ProfilingMetric := ⟨7, "median time", "second", "Median time spent in region"⟩

def tstd : ProfilingMetric := ⟨8, "time std", "second", "Standard deviation of time spent in region"⟩

def tfrac : ProfilingMetric := ⟨9, "time fraction", "%", "Fraction of total time spent in region"⟩

def grain : ProfilingMetric := ⟨10, "grain", "dimensionless", "Grain"⟩

def pets : ProfilingMetric := ⟨11, "PETs", "dimensionless", "ESMF Virtual Machine Persistent Execution Threads"⟩

def pes : ProfilingMetric := ⟨12, "PEs", "dimensionless", "Processing Elements"⟩

/-! ## Metric-keyed dictionaries (insertion-ordered, identity-keyed) -/

abbrev MetricDict (α : Type) : Type := List (ProfilingMetric × α)

def mdFind? {α} (d : MetricDict α) (m : ProfilingMetric) : Option α :=
  (List.find? (fun p => p.1.oid = m.oid) d).map (·.2)

/-- `d[m] = v`: overwrite when the key is present, append otherwise. -/
def mdInsert {α} (d : MetricDict α) (m : ProfilingMetric) (v : α) : MetricDict α :=
  if (List.find? (fun p => p.1.oid = m.oid) d).isSome then
    List.map (fun p => if p.1.oid = m.oid then (p.1, v) else p) d
  else d ++ [(m, v)]

/-- `d[m].append(v)` for list-valued dictionaries. -/
def mdAppend (d : MetricDict (List PyVal)) (m : ProfilingMetric) (v : PyVal) :
    MetricDict (List PyVal) :=
  List.map (fun p => if p.1.oid = m.oid then (p.1, p.2 ++ [v]) else p) d

/-- `d[m] = f(d[m])` at one key. -/
def mdModify {α} (d : MetricDict α) (m : ProfilingMetric) (f : α → α) : MetricDict α :=
  List.map (fun p => if p.1.oid = m.oid then (p.1, f p.2) else p) d

/-- The universal output shape: the `"region"` key plus one list per
declared metric, in declaration order. -/
structure ParsedProfile where
  region : List String
  mdata : MetricDict (List PyVal)
  deriving DecidableEq, Repr

/-! ## FMS parser (`fms_parser.py`) -/

def fmsLabels (has_hits : Bool) : List String :=
  (if has_hits then ["hits"] else []) ++
    ["tmin", "tmax", "tavg", "tstd", "tfrac", "grain", "pemin", "pemax"]

def fmsMetrics (has_hits : Bool) : List ProfilingMetric :=
  (if has_hits then [count] else []) ++
    [tmin, tmax, tavg, tstd, tfrac, grain, pemin, pemax]

/-- `header + r"(.*)" + footer` with `re.DOTALL`, where
`header = r"\s*" + r"\s*".join(labels) + r"\s*"` and
`footer = r" MPP_STACK high water mark=\s*\d*"`.  Group 0 is `(.*)`. -/
def fmsSectionAtoms (labels : List String) : List RAtom :=
  [.cset pyWs 0 none] ++
    (labels.flatMap fun l => [.lit l.data, .cset pyWs 0 none]) ++
    [.gopen 0, .cset anyC 0 none, .gclose 0,
     .lit " MPP_STACK high water mark=".data, .cset pyWs 0 none, .cset isDigitA 0 none]

/-- `^\s*(?P<region>[a-zA-Z:()_/\-*&\s]+(?<!\s))` followed by
`\s+(?P<label>[0-9.]+)` per label and `$`, with `re.MULTILINE`.
The region group is number 0; the group named after `labels[i]` is
number `i + 1`. -/
def fmsLineAtoms (labels : List String) : List RAtom :=
  [.bol, .cset pyWs 0 none, .gopen 0, .cset fmsRegionC 1 none, .nlb pyWs, .gclose 0] ++
    (labels.enum.flatMap fun p =>
      [.cset pyWs 1 none, .gopen (p.1 + 1), .cset digitDotC 1 none, .gclose (p.1 + 1)]) ++
    [.eol]

/-- One iteration of the per-line loop of `FMSProfilingParser.read`:
append the region and, for each `(label, metric)` pair, the converted
captured value. -/
def fmsAppendRow (labels : List String) (metrics : List ProfilingMetric)
    (sec : List Char) (st : ParsedProfile) (m : RMatch) : ParsedProfile :=
  { region := st.region ++ [grp sec m 0],
    mdata := ((labels.zip metrics).enum).foldl
      (fun d q => mdAppend d q.2.2 (_convert_from_string (grp sec m (q.1 + 1))))
      st.mdata }

/-- `FMSProfilingParser.read`. -/
def FMSProfilingParser.read (has_hits : Bool) (stream : String) :
    Except PyErr ParsedProfile :=
  let labels := fmsLabels has_hits
  let metrics := fmsMetrics has_hits
  match research (fmsSectionAtoms labels) stream.data with
  | none => .error (.valueError "No FMS profiling data found")
  | some m =>
    let sec := (grp stream.data m 0).data
    let ms := finditer (fmsLineAtoms labels) sec
    let stats0 : ParsedProfile := ⟨[], metrics.map fun mt => (mt, [])⟩
    let stats := ms.foldl (fmsAppendRow labels metrics sec) stats0
    .ok { stats with mdata := mdModify stats.mdata tfrac (List.map pyMul100) }

/-! ## CICE5 parser (`cice5_parser.py`) -/

/-- Python `float(s)`: raises `ValueError` when the string is not a float
literal. -/
def pyFloatE (s : String) : Except PyErr PyFloat :=
  match pyFloatOfString? s with
  | some f => .ok f
  | none => .error (.valueError "could not convert string to float")

/-- The result dictionary of `CICE5ProfilingParser.read`: string keys
`"region"`, `"min"`, `"max"`, `"mean"`, embedded as one field each. -/
structure CICE5Result where
  region : List String
  minL : List PyFloat
  maxL : List PyFloat
  meanL : List PyFloat
  deriving DecidableEq, Repr

def cice5Metrics : List String := ["min", "max", "mean"]

/-- The stanza pattern of `CICE5ProfilingParser.read`, compiled with
`re.MULTILINE | re.DOTALL` (no anchors occur, and `\s` already crosses
newlines, so only the atom sequence matters).  Groups 1–4 capture the
region name and the three node statistics. -/
def cice5Atoms : List RAtom :=
  [.lit "Timer".data, .cset pyWs 1 none, .cset isDigitA 1 none, .lit ":".data,
   .cset pyWs 1 none, .gopen 1, .cset wordC 1 none, .gclose 1,
   .cset pyWs 1 none, .cset digitDotC 1 none, .cset pyWs 1 none, .lit "seconds".data,
   .cset pyWs 1 none, .lit "Timer stats (node): min =".data,
   .cset pyWs 1 none, .gopen 2, .cset digitDotC 1 none, .gclose 2, .lit " seconds".data,
   .cset pyWs 1 none, .lit "max =".data,
   .cset pyWs 1 none, .gopen 3, .cset digitDotC 1 none, .gclose 3, .lit " seconds".data,
   .cset pyWs 1 none, .lit "mean=".data,
   .cset pyWs 1 none, .gopen 4, .cset digitDotC 1 none, .gclose 4, .lit " seconds".data]

/-- One stanza of `CICE5ProfilingParser.read`: append the region and the
three node statistics (`float()` raising `ValueError` on a bad capture). -/
def cice5Row (s : List Char) (r : CICE5Result) (m : RMatch) : Except PyErr CICE5Result := do
  let mn ← pyFloatE (grp s m 2)
  let mx ← pyFloatE (grp s m 3)
  let me ← pyFloatE (grp s m 4)
  pure { region := r.region ++ [grp s m 1],
         minL := r.minL ++ [mn], maxL := r.maxL ++ [mx], meanL := r.meanL ++ [me] }

/-- `CICE5ProfilingParser.read`. -/
def CICE5ProfilingParser.read (stream : String) : Except PyErr CICE5Result :=
  let ms := finditer cice5Atoms stream.data
  if ms.isEmpty then .error (.valueError "No CICE5 profiling data found")
  else ms.foldlM (cice5Row stream.data) (⟨[], [], [], []⟩ : CICE5Result)

/-! ## UM parser (`um_parser.py`) -/

def umMetrics : List ProfilingMetric := [tavg, tmed, tstd, tmax, pemax, tmin, pemin]

def umRawHeaders : List String :=
  ["ROUTINE", "MEAN", "MEDIAN", "SD", "% of mean", "MAX", "(PE)", "MIN", "(PE)"]

/-- `r"MPP : Inclusive timer summary\s+WALLCLOCK  TIMES\s*" + r"\S*\s+"`
followed by the raw header names joined with `\s*` and a trailing `\s*`. -/
def umHeaderAtoms : List RAtom :=
  [.lit "MPP : Inclusive timer summary".data, .cset pyWs 1 none,
   .lit "WALLCLOCK  TIMES".data, .cset pyWs 0 none,
   .cset nonWsC 0 none, .cset pyWs 1 none] ++
    (umRawHeaders.flatMap fun h => [.lit h.data, .cset pyWs 0 none])

/-- `r"CPU TIMES \(sorted by wallclock times\)\s*"`. -/
def umFooterAtoms : List RAtom :=
  [.lit "CPU TIMES (sorted by wallclock times)".data, .cset pyWs 0 none]

/-- `header + r"(.*)" + footer` with `re.MULTILINE | re.DOTALL`. -/
def umSectionAtoms : List RAtom :=
  umHeaderAtoms ++ [.gopen 0, .cset anyC 0 none, .gclose 0] ++ umFooterAtoms

/-- The per-line pattern of `UMProfilingParser.parse`:
`^\s*[\d\s]+\s+(?P<region>[a-zA-Z][a-zA-Z:()_/\-*&0-9\s\.]+(?<!\s))`
followed, for each metric in order, by a parenthesised capture (PE
metrics), a capture plus a discarded `\s+[\S]+` token (std-dev), or a
plain `\s+([0-9.]+)` capture, and a final `$`; `re.MULTILINE`.  The
region group is number 0 and metric `i` captures group `i + 1`. -/
def umLineAtoms : List RAtom :=
  [.bol, .cset pyWs 0 none, .cset digitWsC 1 none, .cset pyWs 1 none,
   .gopen 0, .cset isAlphaA 1 (some 1), .cset umRegionC 1 none, .nlb pyWs, .gclose 0] ++
    (umMetrics.enum.flatMap fun p =>
      let i := p.1 + 1
      if p.2.oid = pemax.oid || p.2.oid = pemin.oid then
        [.cset pyWs 1 none, .lit "(".data, .cset pyWs 0 none,
         .gopen i, .cset digitDotC 1 none, .gclose i, .cset pyWs 0 none, .lit ")".data]
      else if p.2.oid = tstd.oid then
        [.cset pyWs 1 none, .gopen i, .cset digitDotC 1 none, .gclose i,
         .cset pyWs 1 none, .cset nonWsC 1 none]
      else
        [.cset pyWs 1 none, .gopen i, .cset digitDotC 1 none, .gclose i]) ++
    [.eol]

/-- One iteration of the per-line loop of `UMProfilingParser.parse`. -/
def umAppendRow (sec : List Char) (st : ParsedProfile) (m : RMatch) : ParsedProfile :=
  { region := st.region ++ [grp sec m 0],
    mdata := umMetrics.enum.foldl
      (fun d q => mdAppend d q.2 (_convert_from_string (grp sec m (q.1 + 1))))
      st.mdata }

/-- The body of `UMProfilingParser.parse` after the file has been read:
header search, footer search, section extraction (a failed combined
search makes `profiling_section.group(1)` raise `AttributeError`),
per-line matching, and the final strict line-count check. -/
def UMProfilingParser.readStream (stream : String) : Except PyErr ParsedProfile :=
  match research umHeaderAtoms stream.data with
  | none => .error (.valueError "No matching header found.")
  | some _ =>
  match research umFooterAtoms stream.data with
  | none => .error (.valueError "No matching footer found.")
  | some _ =>
  match research umSectionAtoms stream.data with
  | none => .error .attributeError
  | some sm =>
    let sec := (grp stream.data sm 0).data
    let ms := finditer umLineAtoms sec
    let stats0 : ParsedProfile := ⟨[], umMetrics.map fun mt => (mt, [])⟩
    let stats := ms.foldl (umAppendRow sec) stats0
    let num_lines := (pySplitNl (pyStrip ⟨sec⟩)).length
    if stats.region.length ≠ num_lines then
      .error (.assertionError "Mismatch between matched regions and section lines.")
    else .ok stats

/-! ## ESMF summary parser (`esmf_parser.py`)

The line format is fixed: the last 8 whitespace-separated tokens are the 8
declared metrics in order PETs, PEs, Count, Mean, Min, Min PET, Max,
Max PET; the leading tokens, rejoined with single spaces, form the region
label.  The per-line `stats_dict` has the metric objects as keys with the
typed values below, embedded as one field per key. -/

structure ESMFStats where
  petsV : Int
  pesV : Int
  countV : Int
  tavgV : PyFloat
  tminV : PyFloat
  peminV : Int
  tmaxV : PyFloat
  pemaxV : Int
  deriving DecidableEq, Repr

def esmfMetrics : List ProfilingMetric := [pets, pes, count, tavg, tmin, pemin, tmax, pemax]

/-- Python `int(s)` as an exception-raising conversion. -/
def pyIntE (s : String) : Except PyErr Int :=
  match pyIntOfString? s with
  | some n => .ok n
  | none => .error (.valueError "invalid literal for int")

/-- One line of the ESMF summary: split on whitespace; lines with fewer
than `1 + 8` tokens, or whose last 8 tokens fail their typed conversions,
are skipped (`none`). -/
def esmfParseLine (line : String) : Option (String × ESMFStats) :=
  let parts := pySplitWs line
  if parts.length < 1 + esmfMetrics.length then none
  else
    let region := " ".intercalate (parts.take (parts.length - 8))
    match parts.drop (parts.length - 8) with
    | [s0, s1, s2, s3, s4, s5, s6, s7] =>
      match pyIntOfString? s0, pyIntOfString? s1, pyIntOfString? s2,
        pyFloatOfString? s3, pyFloatOfString? s4, pyIntOfString? s5,
        pyFloatOfString? s6, pyIntOfString? s7 with
      | some a, some b, some c, some d, some e, some f, some g, some h =>
        some (region, ⟨a, b, c, d, e, f, g, h⟩)
      | _, _, _, _, _, _, _, _ => none
    | _ => none

/-- The flat result: `"region"` plus the 8 identity-keyed metric lists of
`result = {m: [] for m in self._metrics}`. -/
structure ESMFFlat where
  region : List String
  petsL : List Int
  pesL : List Int
  countL : List Int
  tavgL : List PyFloat
  tminL : List PyFloat
  peminL : List Int
  tmaxL : List PyFloat
  pemaxL : List Int
  deriving DecidableEq, Repr

def emptyESMFFlat : ESMFFlat := ⟨[], [], [], [], [], [], [], [], []⟩

/-- `esmf_parser._update_flat_result`.  On a region already present at
index `idx`, merging requires `result[pets][idx] == stats[pets]`,
`result[pes][idx] == stats[pes]` and `stats[pets] == stats[pes]`; the
average becomes the call-count-weighted mean (computed with the old
count), the count becomes the sum, and min/max (with their PEs) are
replaced when strictly improved.  Otherwise `NotImplementedError`.
A new region appends to every list. -/
def _update_flat_result (result : ESMFFlat) (stats : ESMFStats) (region : String) :
    Except PyErr ESMFFlat :=
  match result.region.findIdx? (· = region) with
  | some idx =>
    if result.petsL.getD idx 0 = stats.petsV ∧ result.pesL.getD idx 0 = stats.pesV ∧
        stats.petsV = stats.pesV then do
      let newavg ← (((result.tavgL.getD idx .nan).mulInt (result.countL.getD idx 0)).add
          (stats.tavgV.mulInt stats.countV)).divInt (result.countL.getD idx 0 + stats.countV)
      let r := { result with
        tavgL := result.tavgL.set idx newavg,
        countL := result.countL.set idx (result.countL.getD idx 0 + stats.countV) }
      let r := if stats.tminV.blt (result.tminL.getD idx .nan) then
          { r with tminL := r.tminL.set idx stats.tminV,
                   peminL := r.peminL.set idx stats.peminV }
        else r
      let r := if (result.tmaxL.getD idx .nan).blt stats.tmaxV then
          { r with tmaxL := r.tmaxL.set idx stats.tmaxV,
                   pemaxL := r.pemaxL.set idx stats.pemaxV }
        else r
      .ok r
    else
      .error (.notImplementedError
        "multiple regions with same name but different PETs/PEs are not supported")
  | none =>
    .ok { region := result.region ++ [region],
          petsL := result.petsL ++ [stats.petsV],
          pesL := result.pesL ++ [stats.pesV],
          countL := result.countL ++ [stats.countV],
          tavgL := result.tavgL ++ [stats.tavgV],
          tminL := result.tminL ++ [stats.tminV],
          peminL := result.peminL ++ [stats.peminV],
          tmaxL := result.tmaxL ++ [stats.tmaxV],
          pemaxL := result.pemaxL ++ [stats.pemaxV] }

/-- One line of `ESMFSummaryProfilingParser.read` in flat mode:
non-matching lines are skipped, matching lines go through
`_update_flat_result`. -/
def esmfFlatStep (r : ESMFFlat) (line : String) : Except PyErr ESMFFlat :=
  match esmfParseLine line with
  | none => .ok r
  | some (region, stats) => _update_flat_result r stats region

/-- `ESMFSummaryProfilingParser.read` with `hierarchical=False`. -/
def ESMFSummaryProfilingParser.readFlat (stream : String) : Except PyErr ESMFFlat := do
  let lines := pySplitNl (pyStrip stream)
  let result ← lines.foldlM esmfFlatStep emptyESMFFlat
  if result.region.length = 0 then
    .error (.valueError "No ESMF summary profiling data found")
  else .ok result

/-- A node of the hierarchical result: the Python dict mixes metric keys
(the per-node `stats_dict`, embedded as the `stats` field, absent until
the first `update`) with child-region string keys (the `children`
association list, in insertion order). -/
inductive HTree where
  | node (stats : Option ESMFStats) (children : List (String × HTree))

def HTree.stats : HTree → Option ESMFStats
  | node st _ => st

def HTree.children : HTree → List (String × HTree)
  | node _ ch => ch

/-- Look up a child entry by region name. -/
def HTree.child? (t : HTree) (r : String) : Option HTree :=
  (t.children.find? (·.1 = r)).map (·.2)

/-- `parent_dict = <node at path>; if region not in parent_dict:
parent_dict[region] = {}; parent_dict[region].update(stats_dict)`:
create-or-update the child named `r` of the node at `path`.  The `update`
overwrites the metric keys and keeps existing children. -/
def HTree.setChildStats : HTree → List String → String → ESMFStats → HTree
  | .node st ch, [], r, stats =>
    if (ch.find? (·.1 = r)).isSome then
      .node st (ch.map fun p => if p.1 = r then (p.1, .node (some stats) p.2.children) else p)
    else
      .node st (ch ++ [(r, .node (some stats) [])])
  | .node st ch, p :: ps, r, stats =>
    .node st (ch.map fun q => if q.1 = p then (q.1, q.2.setChildStats ps r stats) else q)

/-- Hierarchical-mode state: the result tree, and the stack of
`(node, indent_level)` pairs with the top at the head.  Nodes are
addressed by their path from the root, which is faithful because every
stack entry below the top is an ancestor dict of the entry above it. -/
structure HState where
  tree : HTree
  stack : List (List String × Int)

def initHState : HState := ⟨.node none [], [([], -1)]⟩

/-- The indent level of a line: leading-whitespace length divided by 2. -/
def esmfLineLevel (line : String) : Int :=
  ((line.data.takeWhile pyWs).length : Int) / 2

/-- The hierarchical step on a parsed entry `(region, stats, level)`:
pop the stack while the top's level is `≥` the line's level, then attach
the entry under the new top and push.  An empty stack at `stack[-1]`
would raise `IndexError`. -/
def hierStepP (st : HState) (e : String × ESMFStats × Int) : Except PyErr HState :=
  let stack2 := st.stack.dropWhile fun p => p.2 ≥ e.2.2
  match stack2 with
  | [] => .error .indexError
  | parent :: _ =>
    .ok { tree := st.tree.setChildStats parent.1 e.1 e.2.1,
          stack := (parent.1 ++ [e.1], e.2.2) :: stack2 }

/-- One line of `ESMFSummaryProfilingParser.read` in hierarchical mode:
non-matching lines are skipped; a matching line is processed at the
indent level `leading-whitespace-length // 2`. -/
def esmfHierStep (st : HState) (line : String) : Except PyErr HState :=
  match esmfParseLine line with
  | none => .ok st
  | some (region, stats) => hierStepP st (region, stats, esmfLineLevel line)

/-- `ESMFSummaryProfilingParser.read` with `hierarchical=True`. -/
def ESMFSummaryProfilingParser.readHier (stream : String) : Except PyErr HTree := do
  let lines := pySplitNl (pyStrip stream)
  let final ← lines.foldlM esmfHierStep initHState
  if final.tree.children.isEmpty then
    .error (.valueError "No ESMF summary profiling data found")
  else .ok final.tree

/-! ## Timestamps (`cylc_parser.py`)

`datetime.fromisoformat` restricted to the shapes the logs and the task
database contain: `YYYY-MM-DDTHH:MM:SS`, optionally followed by a
`±HH:MM` UTC offset (a trailing `Z` is rewritten to `+00:00` by
`_extract_timestamp` before parsing).  The embedding represents a
datetime by its second count from 1970-01-01T00:00:00 (proleptic
Gregorian) plus its awareness flag; the supported grammar has
whole-second resolution. -/

def isLeap (y : Int) : Bool := (y % 4 = 0 && y % 100 ≠ 0) || y % 400 = 0

def daysInMonth (y m : Int) : Int :=
  if m = 2 then (if isLeap y then 29 else 28)
  else if m = 4 ∨ m = 6 ∨ m = 9 ∨ m = 11 then 30
  else 31

/-- Days from 1970-01-01 to `y-m-d` in the proleptic Gregorian calendar
(civil-from-days inverse, Hinnant's algorithm). -/
def daysFromCivil (y m d : Int) : Int :=
  let y2 := if m ≤ 2 then y - 1 else y
  let era := (if y2 ≥ 0 then y2 else y2 - 399) / 400
  let yoe := y2 - era * 400
  let mp := if m > 2 then m - 3 else m + 9
  let doy := (153 * mp + 2) / 5 + d - 1
  let doe := yoe * 365 + yoe / 4 - yoe / 100 + doy
  era * 146097 + doe - 719468

structure Timestamp where
  sec : Int
  aware : Bool
  deriving DecidableEq, Repr

def parse2 (a b : Char) : Option Nat :=
  if isDigitA a && isDigitA b then some (10 * digitVal a + digitVal b) else none

def parse4 (a b c d : Char) : Option Nat :=
  if isDigitA a && isDigitA b && isDigitA c && isDigitA d then
    some (1000 * digitVal a + 100 * digitVal b + 10 * digitVal c + digitVal d)
  else none

def mkTimestamp (y mo d h mi s : Nat) (offSec : Option Int) : Option Timestamp :=
  if 1 ≤ mo ∧ mo ≤ 12 ∧ 1 ≤ d ∧ (d : Int) ≤ daysInMonth y mo ∧ h ≤ 23 ∧ mi ≤ 59 ∧ s ≤ 59 then
    let naive : Int := daysFromCivil y mo d * 86400 + h * 3600 + mi * 60 + s
    match offSec with
    | none => some ⟨naive, false⟩
    | some o => some ⟨naive - o, true⟩
  else none

/-- `datetime.fromisoformat` on the supported subset. -/
def isoParse? (s : String) : Option Timestamp :=
  match s.data with
  | [y1, y2, y3, y4, '-', m1, m2, '-', d1, d2, 'T', h1, h2, ':', n1, n2, ':', s1, s2] =>
    match parse4 y1 y2 y3 y4, parse2 m1 m2, parse2 d1 d2,
      parse2 h1 h2, parse2 n1 n2, parse2 s1 s2 with
    | some y, some mo, some d, some h, some mi, some sc =>
      mkTimestamp y mo d h mi sc none
    | _, _, _, _, _, _ => none
  | [y1, y2, y3, y4, '-', m1, m2, '-', d1, d2, 'T', h1, h2, ':', n1, n2, ':', s1, s2,
     sg, o1, o2, ':', o3, o4] =>
    if sg = '+' ∨ sg = '-' then
      match parse4 y1 y2 y3 y4, parse2 m1 m2, parse2 d1 d2,
        parse2 h1 h2, parse2 n1 n2, parse2 s1 s2, parse2 o1 o2, parse2 o3 o4 with
      | some y, some mo, some d, some h, some mi, some sc, some oh, some om =>
        if oh ≤ 23 ∧ om ≤ 59 then
          let off : Int := (oh : Int) * 3600 + om * 60
          mkTimestamp y mo d h mi sc (some (if sg = '-' then -off else off))
        else none
      | _, _, _, _, _, _, _, _ => none
    else none
  | _ => none

/-- `(a - b).total_seconds()`: subtracting an aware and a naive datetime
raises `TypeError`. -/
def tsSub (a b : Timestamp) : Except PyErr Int :=
  if a.aware = b.aware then .ok (a.sec - b.sec) else .error .typeError

/-- `cylc_parser._extract_timestamp`: first whitespace token of the line,
trailing `Z` replaced by `+00:00`, then `fromisoformat`; a missing token
raises `IndexError` and an unparsable one `ValueError`. -/
def _extract_timestamp (line : String) : Except PyErr Timestamp :=
  match pySplitWs line with
  | [] => .error .indexError
  | tok :: _ =>
    let t : String :=
      if tok.data.getLastD ' ' = 'Z' then ⟨tok.data.dropLast ++ "+00:00".data⟩ else tok
    match isoParse? t with
    | some ts => .ok ts
    | none => .error (.valueError "Invalid or missing timestamp")

/-! ## File-system model (`parser.py` path helpers)

`_read_text_file` and `_test_file` are imported from
`access.profiling.parser` by `um_parser.py` and `cylc_parser.py` but are
not present in the provided sources, so they are modelled from the spec
(section 4.1): a non-path-like argument raises `TypeError`; a path not
resolving to an existing file raises `FileNotFoundError`; file contents
that are not decodable as text raise `ValueError`. -/

structure DBTable where
  cols : List String
  rows : List (List PyVal)

abbrev CylcDB := List (String × DBTable)

inductive PyFile where
  | textFile (content : String)
  | binFile
  | dbFile (db : CylcDB)

inductive PathArg where
  | path (p : String)
  | notPathLike

abbrev FileSys := String → Option PyFile

/-- Modelled from the spec: `parser._test_file` (absent from the provided
sources), the private helper validating that the argument is a path to an
existing file. -/
def _test_file (fs : FileSys) : PathArg → Except PyErr String
  | .notPathLike => .error .typeError
  | .path p =>
    match fs p with
    | none => .error .fileNotFoundError
    | some _ => .ok p

/-- Modelled from the spec: `parser._read_text_file` (absent from the
provided sources): validate the path like `_test_file`, then return the
file text; undecodable contents raise `ValueError`. -/
def _read_text_file (fs : FileSys) (pa : PathArg) : Except PyErr String := do
  let p ← _test_file fs pa
  match fs p with
  | some (.textFile s) => .ok s
  | _ => .error (.valueError "file contents are not decodable as text")

/-! ## Cylc log parser and database reader (`cylc_parser.py`) -/

/-- Substring containment (Python `"DONE" in last_line`). -/
def containsSub (hay needle : List Char) : Bool :=
  (ssAux hay none 0).any fun st => (litEat needle st).isSome

/-- The result dictionary of `CylcProfilingParser.parse` and
`CylcDBReader.parse`: `"region"` plus the single `tmax` metric key. -/
structure CylcResult where
  region : List String
  tmaxL : List PyVal
  deriving DecidableEq, Repr

/-- The last element of a nonempty list (`lines[-1]`), carried as head
plus tail. -/
def lastOf (x : String) : List String → String
  | [] => x
  | y :: ys => lastOf y ys

/-- `CylcProfilingParser.parse`. -/
def CylcProfilingParser.parse (fs : FileSys) (pa : PathArg) : Except PyErr CylcResult := do
  let content ← _read_text_file fs pa
  let lines := pySplitlines content
  match lines with
  | [] => .error .indexError
  | first_line :: rest =>
    let last_line := lastOf first_line rest
    if !containsSub last_line.data "DONE".data then
      .error (.valueError "Cylc log is incomplete.")
    else do
      let start_time ←
        match _extract_timestamp first_line with
        | .ok t => .ok t
        | .error _ => .error (.valueError "First line of log has no valid timestamp.")
      let end_time ←
        match _extract_timestamp last_line with
        | .ok t => .ok t
        | .error _ => .error (.valueError "Last line of log has no valid timestamp.")
      let delta ← tsSub end_time start_time
      .ok ⟨["pipeline_elapsed_time"], [.vInt delta]⟩

def cylcRequiredCols : List String := ["cycle", "name", "time_run", "time_run_exit", "run_status"]

/-- Python `str` check used when a row value must be a string. -/
def asStr : PyVal → Except PyErr String
  | .vStr s => .ok s
  | _ => .error .typeError

/-- `row[col] == 0` for the completion-status test. -/
def isZeroVal : PyVal → Bool
  | .vInt 0 => true
  | .vFloat (.finite q) => q = 0
  | _ => false

/-- Row processing of `CylcDBReader.parse`: skip rows whose `run_status`
is not 0, otherwise derive the region label and the elapsed seconds. -/
def cylcDBRow (colIdx : String → Nat) (r : CylcResult) (row : List PyVal) :
    Except PyErr CylcResult := do
  if isZeroVal (row.getD (colIdx "run_status") (.vStr "")) then
    let nm ← asStr (row.getD (colIdx "name") (.vStr ""))
    let cy ← asStr (row.getD (colIdx "cycle") (.vStr ""))
    let region := nm ++ "_cycle" ++ cy
    let st ← asStr (row.getD (colIdx "time_run") (.vStr ""))
    let en ← asStr (row.getD (colIdx "time_run_exit") (.vStr ""))
    let t1 ← _extract_timestamp en
    let t0 ← _extract_timestamp st
    let rt ← tsSub t1 t0
    .ok ⟨r.region ++ [region], r.tmaxL ++ [.vFloat (.finite rt)]⟩
  else
    .ok r

/-- `CylcDBReader.parse`: validate the path, confirm the `task_jobs`
table and its required columns, then fold the row processing over every
row. -/
def CylcDBReader.parse (fs : FileSys) (pa : PathArg) : Except PyErr CylcResult := do
  let dbpath ← _test_file fs pa
  match fs dbpath with
  | some (.dbFile db) =>
    match db.find? (·.1 = "task_jobs") with
    | none => .error (.runtimeError "Table task_jobs not found")
    | some (_, tbl) =>
      let missing := cylcRequiredCols.filter fun c => !tbl.cols.contains c
      if !missing.isEmpty then
        .error (.runtimeError ("Expected table columns: " ++ ", ".intercalate missing))
      else
        let colIdx : String → Nat := fun c => tbl.cols.findIdx (· = c)
        tbl.rows.foldlM (cylcDBRow colIdx) (⟨[], []⟩ : CylcResult)
  | _ => .error (.runtimeError "not a database")

/-- `UMProfilingParser.parse`: read the text file, then parse it. -/
def UMProfilingParser.parse (fs : FileSys) (pa : PathArg) : Except PyErr ParsedProfile := do
  let stream ← _read_text_file fs pa
  UMProfilingParser.readStream stream

/-- `r"Maximum\s+Elapsed\s+Wallclock\s+Time\s*:\s*(?P<total_time>[0-9.]+)\s*"`. -/
def umTotalAtoms : List RAtom :=
  [.lit "Maximum".data, .cset pyWs 1 none, .lit "Elapsed".data, .cset pyWs 1 none,
   .lit "Wallclock".data, .cset pyWs 1 none, .lit "Time".data, .cset pyWs 0 none,
   .lit ":".data, .cset pyWs 0 none,
   .gopen 1, .cset digitDotC 1 none, .gclose 1, .cset pyWs 0 none]

/-- `UMTotalRuntimeParser.parse`. -/
def UMTotalRuntimeParser.parse (fs : FileSys) (pa : PathArg) : Except PyErr ParsedProfile := do
  let stream ← _read_text_file fs pa
  match research umTotalAtoms stream.data with
  | none => .error (.valueError "No matching total runtime line found.")
  | some m => do
    let total_time ← pyFloatE (grp stream.data m 1)
    .ok ⟨["um_total_walltime"], [(tmax, [.vFloat total_time])]⟩

/-! ## Specification-side view of the hierarchical stack

`visIdx levels i` is the stack of line indices (most recent first) that
the pop-while-deeper discipline keeps after the first `i` matched lines:
push `i - 1` after dropping all entries at least as deep.
`nearestSmaller levels i` is the index of the nearest earlier line with a
strictly smaller indentation level, and `hierPath` the resulting node path
(the region labels from the root to the line's entry). -/

def dflHierLine : String × ESMFStats × Int := ("", ⟨0, 0, 0, .finite 0, .finite 0, 0, .finite 0, 0⟩, 0)

/-- The matched lines of a hierarchical parse: region, stats, level. -/
def hierLines (stream : String) : List (String × ESMFStats × Int) :=
  (pySplitNl (pyStrip stream)).filterMap fun line =>
    (esmfParseLine line).map fun rs => (rs.1, rs.2, esmfLineLevel line)

/-- The level sequence of the matched lines. -/
def hierLevels (stream : String) : List Int := (hierLines stream).map (·.2.2)

def levelAt (levels : List Int) (j : Nat) : Int := levels.getD j 0

/-- Indices kept on the stack after the first `i` lines, most recent
first. -/
def visIdx (levels : List Int) : Nat → List Nat
  | 0 => []
  | i + 1 => i :: (visIdx levels i).dropWhile fun j => levelAt levels j ≥ levelAt levels i

/-- The nearest earlier line with a strictly smaller level. -/
def nearestSmaller (levels : List Int) (i : Nat) : Option Nat :=
  (List.range i).reverse.find? fun j => levelAt levels j < levelAt levels i

/-- The node path of line `i`: its parent path (empty at the root)
extended by its region label; `f` is structural fuel (`f ≥ i` suffices
because `nearestSmaller` strictly decreases). -/
def hierPathF (lines : List (String × ESMFStats × Int)) : Nat → Nat → List String
  | 0, i => [(lines.getD i dflHierLine).1]
  | f + 1, i =>
    (match nearestSmaller (lines.map (·.2.2)) i with
     | none => []
     | some j => hierPathF lines f j) ++ [(lines.getD i dflHierLine).1]

def hierPath (lines : List (String × ESMFStats × Int)) (i : Nat) : List String :=
  hierPathF lines i i

/-! ## Concrete fixtures

Small inputs used to instantiate the theorems; shaped after the formats
documented in the parser docstrings and exercised by the repository
tests. -/

/-- An FMS log whose header/footer span is present but whose section
contains no line matching the per-region pattern. -/
def fmsBadSectionLog : String :=
  " hits tmin tmax tavg tstd tfrac grain pemin pemax\n!!!\n MPP_STACK high water mark= 0"

/-- A well-formed two-region FMS log (with the hits column). -/
def fmsSmallLog : String :=
  " hits  tmin  tmax  tavg  tstd tfrac grain pemin pemax\n" ++
  "Total runtime        1   2.5   3.5   3.0   0.1  0.250     0     0    11\n" ++
  "Ocean dynamics      96  43.72 44.39 43.95  0.24 0.317    11     0    11\n" ++
  " MPP_STACK high water mark=          0"

/-- A minimal UM inclusive-summary table with the usual single leading
integer index column. -/
def umBaseLog : String :=
  " MPP : Inclusive timer summary\n WALLCLOCK  TIMES\n" ++
  " N ROUTINE MEAN MEDIAN SD % of mean MAX (PE) MIN (PE)\n" ++
  " 1 A B 4.5 4.5 0.1 2.2% 5.0 ( 3) 4.0 ( 2)\n" ++
  " CPU TIMES (sorted by wallclock times)\n"

/-- The same table with one extra leading integer column per row. -/
def umIntColLog : String :=
  " MPP : Inclusive timer summary\n WALLCLOCK  TIMES\n" ++
  " N ROUTINE MEAN MEDIAN SD % of mean MAX (PE) MIN (PE)\n" ++
  " 7 1 A B 4.5 4.5 0.1 2.2% 5.0 ( 3) 4.0 ( 2)\n" ++
  " CPU TIMES (sorted by wallclock times)\n"

/-- The same table with an extra leading float column. -/
def umFloatColLog : String :=
  " MPP : Inclusive timer summary\n WALLCLOCK  TIMES\n" ++
  " N ROUTINE MEAN MEDIAN SD % of mean MAX (PE) MIN (PE)\n" ++
  " 7.5 1 A B 4.5 4.5 0.1 2.2% 5.0 ( 3) 4.0 ( 2)\n" ++
  " CPU TIMES (sorted by wallclock times)\n"

/-- The same table with an extra leading string column. -/
def umStrColLog : String :=
  " MPP : Inclusive timer summary\n WALLCLOCK  TIMES\n" ++
  " N ROUTINE MEAN MEDIAN SD % of mean MAX (PE) MIN (PE)\n" ++
  " *** 1 A B 4.5 4.5 0.1 2.2% 5.0 ( 3) 4.0 ( 2)\n" ++
  " CPU TIMES (sorted by wallclock times)\n"

/-- The table with a blank line between two data rows: both rows match
and both are non-blank, yet the line count of the stripped section is 3. -/
def umBlankLineLog : String :=
  " MPP : Inclusive timer summary\n WALLCLOCK  TIMES\n" ++
  " N ROUTINE MEAN MEDIAN SD % of mean MAX (PE) MIN (PE)\n" ++
  " 1 A B 4.5 4.5 0.1 2.2% 5.0 ( 3) 4.0 ( 2)\n" ++
  "\n" ++
  " 2 C D 4.5 4.5 0.1 2.2% 5.0 ( 3) 4.0 ( 2)\n" ++
  " CPU TIMES (sorted by wallclock times)\n"

/-- The section of `umBlankLineLog` as the parser extracts it. -/
def umBlankLineSec : List Char :=
  match research umSectionAtoms umBlankLineLog.data with
  | some sm => (grp umBlankLineLog.data sm 0).data
  | none => []

/-- A Cylc suite log matching the spec example: first timestamp
`1994-11-05T23:30:01Z`, last line `2025-10-17T14:18:20Z DONE`. -/
def cylcSpecLog : String :=
  "1994-11-05T23:30:01Z INFO - Suite server: url=x pid=1\n" ++
  "2025-10-17T00:51:12Z INFO - Run mode: live\n" ++
  "2025-10-17T14:18:20Z DONE"

/-- The same log with the completion marker removed from the last line. -/
def cylcNoDoneLog : String :=
  "1994-11-05T23:30:01Z INFO - Suite server: url=x pid=1\n" ++
  "2025-10-17T00:51:12Z INFO - Run mode: live\n" ++
  "2025-10-17T14:18:20Z INFO - Suite shutting down"

/-- A file system holding both Cylc logs. -/
def cylcSpecFS : FileSys := fun p =>
  if p = "log" then some (.textFile cylcSpecLog)
  else if p = "nodone" then some (.textFile cylcNoDoneLog)
  else none

/-- An empty file system (no path exists). -/
def emptyFS : FileSys := fun _ => none

/-- A schema-valid `task_jobs` table whose only row failed
(`run_status = 1`), so no row passes the completion filter. -/
def cylcFailedTbl : DBTable :=
  ⟨["cycle", "name", "time_run", "time_run_exit", "run_status"],
   [[.vStr "1", .vStr "build", .vStr "2025-10-17T00:00:00Z",
     .vStr "2025-10-17T00:00:05Z", .vInt 1]]⟩

def cylcFailedRowDB : CylcDB := [("task_jobs", cylcFailedTbl)]

/-- A file system holding the database with no successfully-completed
rows. -/
def cylcEmptyRunsFS : FileSys := fun p =>
  if p = "db" then some (.dbFile cylcFailedRowDB) else none

/-- A UM runtime log end with the total-walltime phrase. -/
def umTotalLog : String :=
  " Total Elapsed CPU Time:    820297.91
 Maximum Elapsed Wallclock Time:    3944.25
"

/-- A file system holding the UM runtime log. -/
def umTotalFS : FileSys := fun p =>
  if p = "um.log" then some (.textFile umTotalLog) else none

/-- The duplicate-region ESMF summary of the spec example: counts 960 and
1920 with averages 4.0 and 6.0 and agreeing PETs/PEs. -/
def esmfDupLog : String :=
  "Region PETs PEs Count Mean (s) Min (s) Min PET Max (s) Max PET\n" ++
  "  [ESMF] 364 364 1 10.0 10.0 0 10.0 1\n" ++
  "    [NEST1] region1 364 364 960 4.0000 3.0000 0 5.0000 1663\n" ++
  "    [NEST1] region1 364 364 1920 6.0000 2.0000 1 6.5000 1662"

/-- The same summary with disagreeing PE counts between the duplicates. -/
def esmfDupBadLog : String :=
  "  [ESMF] 364 364 1 10.0 10.0 0 10.0 1\n" ++
  "    [NEST1] region1 364 364 960 4.0000 3.0000 0 5.0000 1663\n" ++
  "    [NEST1] region1 728 728 1920 6.0000 2.0000 1 6.5000 1662"

/-- Two separately constructed metrics that agree on every field the user
sees; their `oid`s differ because each construction is one allocation. -/
def tminA : ProfilingMetric := ⟨100, "minimum time", "second", "Minimum time spent in region"⟩

def tminB : ProfilingMetric := ⟨101, "minimum time", "second", "Minimum time spent in region"⟩

/-! # Theorems -/

/-- Inserting under one metric key never disturbs lookup under a metric
with a different identity, whatever the user-visible fields. -/
theorem mdFind?_overwrite_ne {α} (d : MetricDict α) (m₁ m₂ : ProfilingMetric) (v : α)
    (h : m₁.oid ≠ m₂.oid) :
    mdFind? (List.map (fun p => if p.1.oid = m₁.oid then (p.1, v) else p) d) m₂ =
      mdFind? d m₂ := by
  induction d with
  | nil => rfl
  | cons a t ih =>
    by_cases h1 : a.1.oid = m₁.oid
    · have h2 : ¬(a.1.oid = m₂.oid) := by rw [h1]; exact h
      simp [mdFind?, List.find?_cons, h1, h2, h, Ne.symm h] at ih ⊢
      exact ih
    · by_cases h2 : a.1.oid = m₂.oid
      · simp [mdFind?, List.find?_cons, h1, h2, h, Ne.symm h]
      · simp [mdFind?, List.find?_cons, h1, h2, h, Ne.symm h] at ih ⊢
        exact ih

theorem mdFind?_append_one_ne {α} (d : MetricDict α) (m₁ m₂ : ProfilingMetric) (v : α)
    (h : m₁.oid ≠ m₂.oid) : mdFind? (d ++ [(m₁, v)]) m₂ = mdFind? d m₂ := by
  induction d with
  | nil => simp [mdFind?, List.find?_cons, h]
  | cons a t ih =>
    by_cases h2 : a.1.oid = m₂.oid
    · simp [mdFind?, List.find?_cons, h2]
    · simp [mdFind?, List.find?_cons, h2] at ih ⊢
      exact ih

theorem mdFind?_mdInsert_ne {α} (d : MetricDict α) (m₁ m₂ : ProfilingMetric) (v : α)
    (h : m₁.oid ≠ m₂.oid) : mdFind? (mdInsert d m₁ v) m₂ = mdFind? d m₂ := by
  unfold mdInsert
  split
  · exact mdFind?_overwrite_ne d m₁ m₂ v h
  · exact mdFind?_append_one_ne d m₁ m₂ v h

set_option maxRecDepth 100000 in
/-- C8: the shared numeric-coercion helper `_convert_from_string` tries
`int(value)` first, then `float(value)`, then returns the original string
unchanged, so it never raises; in particular `"1e500"` coerces to float
infinity rather than falling back to the string. -/
theorem c8_convert_from_string_order :
    (∀ s n, pyIntOfString? s = some n → _convert_from_string s = .vInt n) ∧
    (∀ s f, pyIntOfString? s = none → pyFloatOfString? s = some f →
      _convert_from_string s = .vFloat f) ∧
    (∀ s, pyIntOfString? s = none → pyFloatOfString? s = none →
      _convert_from_string s = .vStr s) ∧
    _convert_from_string "1e500" = .vFloat .inf := by
  refine ⟨?_, ?_, ?_, ?_⟩
  · intro s n h; simp [_convert_from_string, h]
  · intro s f h1 h2; simp [_convert_from_string, h1, h2]
  · intro s h1 h2; simp [_convert_from_string, h1, h2]
  · with_unfolding_all rfl

set_option maxRecDepth 100000 in
/-- Witness for C8 at concrete inputs: an integer string, a float string
and a non-numeric string. -/
theorem c8_convert_from_string_order_witness :
    _convert_from_string "42" = .vInt 42 ∧
    _convert_from_string "4.5" = .vFloat (.finite (mkRat 9 2)) ∧
    _convert_from_string "abc" = .vStr "abc" :=
  ⟨c8_convert_from_string_order.1 "42" 42 (by rfl),
   c8_convert_from_string_order.2.1 "4.5" (.finite (mkRat 9 2)) (by rfl)
     (by with_unfolding_all rfl),
   c8_convert_from_string_order.2.2.1 "abc" (by rfl) (by with_unfolding_all rfl)⟩

/-- C9: metric dictionary keys compare by object identity, never by the
user-visible fields, so two separately constructed metrics are distinct
keys even when name, units and description all coincide — two metrics
named "minimum time" never collide. -/
theorem c9_metric_identity_keys :
    (∀ (m₁ m₂ : ProfilingMetric) (d : MetricDict (List PyVal)) (v : List PyVal),
      m₁.oid ≠ m₂.oid → m₁.name = m₂.name → m₁.units = m₂.units →
      m₁.description = m₂.description →
      mdFind? (mdInsert d m₁ v) m₂ = mdFind? d m₂) ∧
    tminA.name = tminB.name ∧ tminA.units = tminB.units ∧
    tminA.description = tminB.description ∧
    mdFind? (mdInsert ([] : MetricDict (List PyVal)) tminA [.vInt 7]) tminA = some [.vInt 7] ∧
    mdFind? (mdInsert ([] : MetricDict (List PyVal)) tminA [.vInt 7]) tminB = none := by
  refine ⟨?_, rfl, rfl, rfl, rfl, rfl⟩
  intro m₁ m₂ d v h _ _ _
  exact mdFind?_mdInsert_ne d m₁ m₂ v h

/-- Witness for C9 at the two concretely constructed "minimum time"
metrics. -/
theorem c9_metric_identity_keys_witness :
    mdFind? (mdInsert ([] : MetricDict (List PyVal)) tminA [.vInt 7]) tminB =
      mdFind? ([] : MetricDict (List PyVal)) tminB :=
  c9_metric_identity_keys.1 tminA tminB [] [.vInt 7] (by decide) rfl rfl rfl

/-- C3: every path-accepting entry point (UM inclusive summary, UM total
runtime, Cylc log, Cylc database reader) raises `FileNotFoundError` when
the path does not resolve to an existing file.  The statement quantifies
over every file system, so for the database reader the error is
independent of any database contents: it is raised before any query. -/
theorem c3_missing_path_raises :
    ∀ (fs : FileSys) (p : String), fs p = none →
      UMProfilingParser.parse fs (.path p) = .error .fileNotFoundError ∧
      UMTotalRuntimeParser.parse fs (.path p) = .error .fileNotFoundError ∧
      CylcProfilingParser.parse fs (.path p) = .error .fileNotFoundError ∧
      CylcDBReader.parse fs (.path p) = .error .fileNotFoundError := by
  intro fs p h
  refine ⟨?_, ?_, ?_, ?_⟩ <;>
    simp [UMProfilingParser.parse, UMTotalRuntimeParser.parse, CylcProfilingParser.parse,
      CylcDBReader.parse, _read_text_file, _test_file, h, Bind.bind, Except.bind]

/-- Witness for C3: the empty file system and a concrete path. -/
theorem c3_missing_path_raises_witness :
    UMProfilingParser.parse emptyFS (.path "absent.log") = .error .fileNotFoundError ∧
    UMTotalRuntimeParser.parse emptyFS (.path "absent.log") = .error .fileNotFoundError ∧
    CylcProfilingParser.parse emptyFS (.path "absent.log") = .error .fileNotFoundError ∧
    CylcDBReader.parse emptyFS (.path "absent.log") = .error .fileNotFoundError :=
  c3_missing_path_raises emptyFS "absent.log" rfl

/-- Division of a finite float by a nonzero int computes the rational
quotient. -/
theorem PyFloat.divInt_finite (x : ℚ) (k : Int) (hk : k ≠ 0) :
    PyFloat.divInt (.finite x) k = .ok (.finite (x / (k : ℚ))) := by
  unfold PyFloat.divInt
  split
  · exact absurd rfl hk
  · rename_i av heq hz
    injection heq with h1
    rw [h1]
  · rename_i heq hz
    exact absurd heq (by simp)
  · rename_i av heq hz
    exact absurd heq (by simp)
  · rename_i av heq hz
    exact absurd heq (by simp)

set_option maxRecDepth 100000 in
/-- C4: in flat mode, a repeated region label merges only when the two
occurrences agree on both PE-count metrics and those agree with each
other; the merged entry sums the call counts, takes the call-count-
weighted mean of the averages, and replaces min/max (with their PE) only
on strict improvement; disagreeing PE counts raise the not-supported
error.  The concrete instance uses counts 960 and 1920 with averages 4.0
and 6.0, merging to count 2880 and average 16/3. -/
theorem c4_flat_merge_semantics :
    (∀ (res : ESMFFlat) (stats : ESMFStats) (region : String) (idx : Nat)
       (a b oldmin newmin oldmax newmax : ℚ) (m n : Int),
      res.region.findIdx? (· = region) = some idx →
      res.petsL.getD idx 0 = stats.petsV →
      res.pesL.getD idx 0 = stats.pesV →
      stats.petsV = stats.pesV →
      res.tavgL.getD idx .nan = .finite a →
      stats.tavgV = .finite b →
      res.countL.getD idx 0 = m →
      stats.countV = n →
      m + n ≠ 0 →
      res.tminL.getD idx .nan = .finite oldmin →
      stats.tminV = .finite newmin →
      res.tmaxL.getD idx .nan = .finite oldmax →
      stats.tmaxV = .finite newmax →
      _update_flat_result res stats region = .ok
        { res with
          tavgL := res.tavgL.set idx (.finite ((a * (m : ℚ) + b * (n : ℚ)) / ((m + n : Int) : ℚ))),
          countL := res.countL.set idx (m + n),
          tminL := if newmin < oldmin then res.tminL.set idx (.finite newmin) else res.tminL,
          peminL := if newmin < oldmin then res.peminL.set idx stats.peminV else res.peminL,
          tmaxL := if oldmax < newmax then res.tmaxL.set idx (.finite newmax) else res.tmaxL,
          pemaxL := if oldmax < newmax then res.pemaxL.set idx stats.pemaxV else res.pemaxL }) ∧
    (∀ (res : ESMFFlat) (stats : ESMFStats) (region : String) (idx : Nat),
      res.region.findIdx? (· = region) = some idx →
      ¬(res.petsL.getD idx 0 = stats.petsV ∧ res.pesL.getD idx 0 = stats.pesV ∧
        stats.petsV = stats.pesV) →
      _update_flat_result res stats region = .error (.notImplementedError
        "multiple regions with same name but different PETs/PEs are not supported")) ∧
    ESMFSummaryProfilingParser.readFlat esmfDupLog = .ok ⟨["[ESMF]", "[NEST1] region1"],
      [364, 364], [364, 364], [1, 2880],
      [.finite (mkRat 10 1), .finite (mkRat 16 3)], [.finite (mkRat 10 1), .finite (mkRat 2 1)],
      [0, 1], [.finite (mkRat 10 1), .finite (mkRat 13 2)], [1, 1662]⟩ ∧
    ESMFSummaryProfilingParser.readFlat esmfDupBadLog = .error (.notImplementedError
      "multiple regions with same name but different PETs/PEs are not supported") := by
  refine ⟨?_, ?_, by with_unfolding_all rfl, by with_unfolding_all rfl⟩
  · intro res stats region idx a b oldmin newmin oldmax newmax m n
      hidx hpets hpes hpp hta htb hm hn hmn htmin1 htmin2 htmax1 htmax2
    unfold _update_flat_result
    simp only [hidx]
    simp only [hpets, hpes, hpp, and_self, if_true]
    rw [hta, htb, hm, hn, htmin1, htmin2, htmax1, htmax2]
    simp only [PyFloat.mulInt, PyFloat.add, PyFloat.divInt_finite _ _ hmn, PyFloat.blt]
    simp only [Except.bind, bind, pure, Except.pure]
    split_ifs <;> simp_all
  · intro res stats region idx hidx hne
    unfold _update_flat_result
    simp only [hidx]
    rw [if_neg hne]

/-- Witness for C4 at the state reached after the first duplicate
occurrence: counts 960 and 1920 with averages 4 and 6 merge to count 2880
and average 16/3. -/
theorem c4_flat_merge_semantics_witness :
    _update_flat_result
      ⟨["[NEST1] region1"], [364], [364], [960], [.finite 4], [.finite 3], [0],
        [.finite 5], [1663]⟩
      ⟨364, 364, 1920, .finite 6, .finite 2, 1, .finite (13 / 2), 1662⟩
      "[NEST1] region1" = .ok
      ⟨["[NEST1] region1"], [364], [364], [2880],
        [.finite ((4 * (960 : Int) + 6 * (1920 : Int)) / ((960 + 1920 : Int) : ℚ))],
        [.finite 2], [1], [.finite (13 / 2)], [1662]⟩ := by
  have h := c4_flat_merge_semantics.1
    ⟨["[NEST1] region1"], [364], [364], [960], [.finite 4], [.finite 3], [0],
      [.finite 5], [1663]⟩
    ⟨364, 364, 1920, .finite 6, .finite 2, 1, .finite (13 / 2), 1662⟩
    "[NEST1] region1" 0 4 6 3 2 5 (13 / 2) 960 1920
    (by rfl) (by rfl) (by rfl) (by rfl) (by rfl) (by rfl) (by rfl) (by rfl)
    (by decide) (by rfl) (by rfl) (by rfl) (by rfl)
  rw [h]
  norm_num

set_option maxRecDepth 100000 in
/-- C6: the timestamp-delta parser returns exactly one region named
`pipeline_elapsed_time` whose single metric value is the integer-second
difference between the timestamps extracted from the last and first lines
(the supported timestamp grammar has whole-second resolution, so Python's
`int()` truncation is the identity here).  For the spec log, whose first
line starts at `1994-11-05T23:30:01Z` and whose last line is
`2025-10-17T14:18:20Z DONE`, the value is 976632499; the same log with
the completion marker removed raises `ValueError`. -/
theorem c6_cylc_timestamp_delta :
    (∀ (fs : FileSys) (pa : PathArg) (r : CylcResult),
      CylcProfilingParser.parse fs pa = .ok r →
      ∃ content first_line rest t0 t1 d,
        _read_text_file fs pa = .ok content ∧
        pySplitlines content = first_line :: rest ∧
        _extract_timestamp first_line = .ok t0 ∧
        _extract_timestamp (lastOf first_line rest) = .ok t1 ∧
        tsSub t1 t0 = .ok d ∧
        r = ⟨["pipeline_elapsed_time"], [.vInt d]⟩) ∧
    CylcProfilingParser.parse cylcSpecFS (.path "log") =
      .ok ⟨["pipeline_elapsed_time"], [.vInt 976632499]⟩ ∧
    CylcProfilingParser.parse cylcSpecFS (.path "nodone") =
      .error (.valueError "Cylc log is incomplete.") := by
  refine ⟨?_, by with_unfolding_all rfl, by with_unfolding_all rfl⟩
  intro fs pa r h
  unfold CylcProfilingParser.parse at h
  cases hc : _read_text_file fs pa with
  | error e => simp [hc, Bind.bind, Except.bind] at h
  | ok content =>
    simp only [hc, Bind.bind, Except.bind] at h
    cases hl : pySplitlines content with
    | nil => simp [hl] at h
    | cons first rest =>
      simp only [hl] at h
      by_cases hd : containsSub (lastOf first rest).data "DONE".data
      · simp only [hd, Bool.not_true, Bool.false_eq_true, if_false] at h
        cases ht0 : _extract_timestamp first with
        | error e => simp [ht0] at h
        | ok t0 =>
          simp only [ht0] at h
          cases ht1 : _extract_timestamp (lastOf first rest) with
          | error e => simp [ht1] at h
          | ok t1 =>
            simp only [ht1] at h
            cases hs : tsSub t1 t0 with
            | error e => simp [hs, Bind.bind, Except.bind] at h
            | ok d =>
              simp only [hs, Bind.bind, Except.bind, Except.ok.injEq] at h
              exact ⟨content, first, rest, t0, t1, d, rfl, hl, ht0, ht1, hs, h.symm⟩
      · simp only [Bool.not_eq_true] at hd
        simp [hd] at h

/-- Witness for C6 at the spec log. -/
theorem c6_cylc_timestamp_delta_witness :
    ∃ content first_line rest t0 t1 d,
      _read_text_file cylcSpecFS (.path "log") = .ok content ∧
      pySplitlines content = first_line :: rest ∧
      _extract_timestamp first_line = .ok t0 ∧
      _extract_timestamp (lastOf first_line rest) = .ok t1 ∧
      tsSub t1 t0 = .ok d ∧
      (⟨["pipeline_elapsed_time"], [.vInt 976632499]⟩ : CylcResult) =
        ⟨["pipeline_elapsed_time"], [.vInt d]⟩ :=
  c6_cylc_timestamp_delta.1 cylcSpecFS (.path "log")
    ⟨["pipeline_elapsed_time"], [.vInt 976632499]⟩ (by with_unfolding_all rfl)

set_option maxHeartbeats 1000000 in
/-- The FMS per-line fold, `has_hits = true`: each match appends its
region and one converted capture per column. -/
theorem fms_fold_true (sec : List Char) (ms : List RMatch) (reg : List String)
    (l1 l2 l3 l4 l5 l6 l7 l8 l9 : List PyVal) :
    ms.foldl (fmsAppendRow (fmsLabels true) (fmsMetrics true) sec)
      ⟨reg, [(count, l1), (tmin, l2), (tmax, l3), (tavg, l4), (tstd, l5),
             (tfrac, l6), (grain, l7), (pemin, l8), (pemax, l9)]⟩ =
    ⟨reg ++ ms.map (fun m => grp sec m 0),
     [(count, l1 ++ ms.map fun m => _convert_from_string (grp sec m 1)),
      (tmin, l2 ++ ms.map fun m => _convert_from_string (grp sec m 2)),
      (tmax, l3 ++ ms.map fun m => _convert_from_string (grp sec m 3)),
      (tavg, l4 ++ ms.map fun m => _convert_from_string (grp sec m 4)),
      (tstd, l5 ++ ms.map fun m => _convert_from_string (grp sec m 5)),
      (tfrac, l6 ++ ms.map fun m => _convert_from_string (grp sec m 6)),
      (grain, l7 ++ ms.map fun m => _convert_from_string (grp sec m 7)),
      (pemin, l8 ++ ms.map fun m => _convert_from_string (grp sec m 8)),
      (pemax, l9 ++ ms.map fun m => _convert_from_string (grp sec m 9))]⟩ := by
  induction ms generalizing reg l1 l2 l3 l4 l5 l6 l7 l8 l9 with
  | nil => simp
  | cons m ms ih =>
    rw [List.foldl_cons]
    have hstep : fmsAppendRow (fmsLabels true) (fmsMetrics true) sec
        ⟨reg, [(count, l1), (tmin, l2), (tmax, l3), (tavg, l4), (tstd, l5),
               (tfrac, l6), (grain, l7), (pemin, l8), (pemax, l9)]⟩ m =
        ⟨reg ++ [grp sec m 0],
         [(count, l1 ++ [_convert_from_string (grp sec m 1)]),
          (tmin, l2 ++ [_convert_from_string (grp sec m 2)]),
          (tmax, l3 ++ [_convert_from_string (grp sec m 3)]),
          (tavg, l4 ++ [_convert_from_string (grp sec m 4)]),
          (tstd, l5 ++ [_convert_from_string (grp sec m 5)]),
          (tfrac, l6 ++ [_convert_from_string (grp sec m 6)]),
          (grain, l7 ++ [_convert_from_string (grp sec m 7)]),
          (pemin, l8 ++ [_convert_from_string (grp sec m 8)]),
          (pemax, l9 ++ [_convert_from_string (grp sec m 9)])]⟩ := rfl
    rw [hstep, ih]
    simp [List.append_assoc]

set_option maxHeartbeats 1000000 in
/-- The FMS per-line fold, `has_hits = false`. -/
theorem fms_fold_false (sec : List Char) (ms : List RMatch) (reg : List String)
    (l1 l2 l3 l4 l5 l6 l7 l8 : List PyVal) :
    ms.foldl (fmsAppendRow (fmsLabels false) (fmsMetrics false) sec)
      ⟨reg, [(tmin, l1), (tmax, l2), (tavg, l3), (tstd, l4),
             (tfrac, l5), (grain, l6), (pemin, l7), (pemax, l8)]⟩ =
    ⟨reg ++ ms.map (fun m => grp sec m 0),
     [(tmin, l1 ++ ms.map fun m => _convert_from_string (grp sec m 1)),
      (tmax, l2 ++ ms.map fun m => _convert_from_string (grp sec m 2)),
      (tavg, l3 ++ ms.map fun m => _convert_from_string (grp sec m 3)),
      (tstd, l4 ++ ms.map fun m => _convert_from_string (grp sec m 4)),
      (tfrac, l5 ++ ms.map fun m => _convert_from_string (grp sec m 5)),
      (grain, l6 ++ ms.map fun m => _convert_from_string (grp sec m 6)),
      (pemin, l7 ++ ms.map fun m => _convert_from_string (grp sec m 7)),
      (pemax, l8 ++ ms.map fun m => _convert_from_string (grp sec m 8))]⟩ := by
  induction ms generalizing reg l1 l2 l3 l4 l5 l6 l7 l8 with
  | nil => simp
  | cons m ms ih =>
    rw [List.foldl_cons]
    have hstep : fmsAppendRow (fmsLabels false) (fmsMetrics false) sec
        ⟨reg, [(tmin, l1), (tmax, l2), (tavg, l3), (tstd, l4),
               (tfrac, l5), (grain, l6), (pemin, l7), (pemax, l8)]⟩ m =
        ⟨reg ++ [grp sec m 0],
         [(tmin, l1 ++ [_convert_from_string (grp sec m 1)]),
          (tmax, l2 ++ [_convert_from_string (grp sec m 2)]),
          (tavg, l3 ++ [_convert_from_string (grp sec m 3)]),
          (tstd, l4 ++ [_convert_from_string (grp sec m 4)]),
          (tfrac, l5 ++ [_convert_from_string (grp sec m 5)]),
          (grain, l6 ++ [_convert_from_string (grp sec m 6)]),
          (pemin, l7 ++ [_convert_from_string (grp sec m 7)]),
          (pemax, l8 ++ [_convert_from_string (grp sec m 8)])]⟩ := rfl
    rw [hstep, ih]
    simp [List.append_assoc]

/-- Full characterisation of a successful `has_hits = true` FMS parse:
the result holds exactly the matched rows, column by column, with the
time-fraction column rescaled by `pyMul100`. -/
theorem fms_read_true_char (stream : String) (r : ParsedProfile)
    (h : FMSProfilingParser.read true stream = .ok r) :
    ∃ sm, research (fmsSectionAtoms (fmsLabels true)) stream.data = some sm ∧
      r = ⟨(finditer (fmsLineAtoms (fmsLabels true)) (grp stream.data sm 0).data).map
             (fun m => grp (grp stream.data sm 0).data m 0),
           [(count, (finditer (fmsLineAtoms (fmsLabels true)) (grp stream.data sm 0).data).map
              fun m => _convert_from_string (grp (grp stream.data sm 0).data m 1)),
            (tmin, (finditer (fmsLineAtoms (fmsLabels true)) (grp stream.data sm 0).data).map
              fun m => _convert_from_string (grp (grp stream.data sm 0).data m 2)),
            (tmax, (finditer (fmsLineAtoms (fmsLabels true)) (grp stream.data sm 0).data).map
              fun m => _convert_from_string (grp (grp stream.data sm 0).data m 3)),
            (tavg, (finditer (fmsLineAtoms (fmsLabels true)) (grp stream.data sm 0).data).map
              fun m => _convert_from_string (grp (grp stream.data sm 0).data m 4)),
            (tstd, (finditer (fmsLineAtoms (fmsLabels true)) (grp stream.data sm 0).data).map
              fun m => _convert_from_string (grp (grp stream.data sm 0).data m 5)),
            (tfrac, ((finditer (fmsLineAtoms (fmsLabels true)) (grp stream.data sm 0).data).map
              fun m => _convert_from_string (grp (grp stream.data sm 0).data m 6)).map pyMul100),
            (grain, (finditer (fmsLineAtoms (fmsLabels true)) (grp stream.data sm 0).data).map
              fun m => _convert_from_string (grp (grp stream.data sm 0).data m 7)),
            (pemin, (finditer (fmsLineAtoms (fmsLabels true)) (grp stream.data sm 0).data).map
              fun m => _convert_from_string (grp (grp stream.data sm 0).data m 8)),
            (pemax, (finditer (fmsLineAtoms (fmsLabels true)) (grp stream.data sm 0).data).map
              fun m => _convert_from_string (grp (grp stream.data sm 0).data m 9))]⟩ := by
  unfold FMSProfilingParser.read at h
  cases hs : research (fmsSectionAtoms (fmsLabels true)) stream.data with
  | none => simp [hs] at h
  | some sm =>
    refine ⟨sm, rfl, ?_⟩
    simp only [hs] at h
    rw [show (⟨[], (fmsMetrics true).map fun mt => (mt, [])⟩ : ParsedProfile) =
        ⟨[], [(count, []), (tmin, []), (tmax, []), (tavg, []), (tstd, []),
              (tfrac, []), (grain, []), (pemin, []), (pemax, [])]⟩ from rfl,
      fms_fold_true] at h
    simp only [List.nil_append, mdModify] at h
    injection h with h
    rw [← h]
    rfl

/-- Full characterisation of a successful `has_hits = false` FMS parse. -/
theorem fms_read_false_char (stream : String) (r : ParsedProfile)
    (h : FMSProfilingParser.read false stream = .ok r) :
    ∃ sm, research (fmsSectionAtoms (fmsLabels false)) stream.data = some sm ∧
      r = ⟨(finditer (fmsLineAtoms (fmsLabels false)) (grp stream.data sm 0).data).map
             (fun m => grp (grp stream.data sm 0).data m 0),
           [(tmin, (finditer (fmsLineAtoms (fmsLabels false)) (grp stream.data sm 0).data).map
              fun m => _convert_from_string (grp (grp stream.data sm 0).data m 1)),
            (tmax, (finditer (fmsLineAtoms (fmsLabels false)) (grp stream.data sm 0).data).map
              fun m => _convert_from_string (grp (grp stream.data sm 0).data m 2)),
            (tavg, (finditer (fmsLineAtoms (fmsLabels false)) (grp stream.data sm 0).data).map
              fun m => _convert_from_string (grp (grp stream.data sm 0).data m 3)),
            (tstd, (finditer (fmsLineAtoms (fmsLabels false)) (grp stream.data sm 0).data).map
              fun m => _convert_from_string (grp (grp stream.data sm 0).data m 4)),
            (tfrac, ((finditer (fmsLineAtoms (fmsLabels false)) (grp stream.data sm 0).data).map
              fun m => _convert_from_string (grp (grp stream.data sm 0).data m 5)).map pyMul100),
            (grain, (finditer (fmsLineAtoms (fmsLabels false)) (grp stream.data sm 0).data).map
              fun m => _convert_from_string (grp (grp stream.data sm 0).data m 6)),
            (pemin, (finditer (fmsLineAtoms (fmsLabels false)) (grp stream.data sm 0).data).map
              fun m => _convert_from_string (grp (grp stream.data sm 0).data m 7)),
            (pemax, (finditer (fmsLineAtoms (fmsLabels false)) (grp stream.data sm 0).data).map
              fun m => _convert_from_string (grp (grp stream.data sm 0).data m 8))]⟩ := by
  unfold FMSProfilingParser.read at h
  cases hs : research (fmsSectionAtoms (fmsLabels false)) stream.data with
  | none => simp [hs] at h
  | some sm =>
    refine ⟨sm, rfl, ?_⟩
    simp only [hs] at h
    rw [show (⟨[], (fmsMetrics false).map fun mt => (mt, [])⟩ : ParsedProfile) =
        ⟨[], [(tmin, []), (tmax, []), (tavg, []), (tstd, []),
              (tfrac, []), (grain, []), (pemin, []), (pemax, [])]⟩ from rfl,
      fms_fold_false] at h
    simp only [List.nil_append, mdModify] at h
    injection h with h
    rw [← h]
    rfl

set_option maxHeartbeats 1000000 in
/-- The UM per-line fold: each match appends its region and one converted
capture per metric. -/
theorem um_fold (sec : List Char) (ms : List RMatch) (reg : List String)
    (l1 l2 l3 l4 l5 l6 l7 : List PyVal) :
    ms.foldl (umAppendRow sec)
      ⟨reg, [(tavg, l1), (tmed, l2), (tstd, l3), (tmax, l4), (pemax, l5),
             (tmin, l6), (pemin, l7)]⟩ =
    ⟨reg ++ ms.map (fun m => grp sec m 0),
     [(tavg, l1 ++ ms.map fun m => _convert_from_string (grp sec m 1)),
      (tmed, l2 ++ ms.map fun m => _convert_from_string (grp sec m 2)),
      (tstd, l3 ++ ms.map fun m => _convert_from_string (grp sec m 3)),
      (tmax, l4 ++ ms.map fun m => _convert_from_string (grp sec m 4)),
      (pemax, l5 ++ ms.map fun m => _convert_from_string (grp sec m 5)),
      (tmin, l6 ++ ms.map fun m => _convert_from_string (grp sec m 6)),
      (pemin, l7 ++ ms.map fun m => _convert_from_string (grp sec m 7))]⟩ := by
  induction ms generalizing reg l1 l2 l3 l4 l5 l6 l7 with
  | nil => simp
  | cons m ms ih =>
    rw [List.foldl_cons]
    have hstep : umAppendRow sec
        ⟨reg, [(tavg, l1), (tmed, l2), (tstd, l3), (tmax, l4), (pemax, l5),
               (tmin, l6), (pemin, l7)]⟩ m =
        ⟨reg ++ [grp sec m 0],
         [(tavg, l1 ++ [_convert_from_string (grp sec m 1)]),
          (tmed, l2 ++ [_convert_from_string (grp sec m 2)]),
          (tstd, l3 ++ [_convert_from_string (grp sec m 3)]),
          (tmax, l4 ++ [_convert_from_string (grp sec m 4)]),
          (pemax, l5 ++ [_convert_from_string (grp sec m 5)]),
          (tmin, l6 ++ [_convert_from_string (grp sec m 6)]),
          (pemin, l7 ++ [_convert_from_string (grp sec m 7)])]⟩ := rfl
    rw [hstep, ih]
    simp [List.append_assoc]

/-- Full characterisation of a successful UM inclusive-summary parse: the
result holds exactly the matched rows, and their count equals the line
count of the whitespace-stripped bounded section. -/
theorem um_read_char (stream : String) (r : ParsedProfile)
    (h : UMProfilingParser.readStream stream = .ok r) :
    ∃ sm, research umSectionAtoms stream.data = some sm ∧
      (finditer umLineAtoms (grp stream.data sm 0).data).length =
        (pySplitNl (pyStrip ⟨(grp stream.data sm 0).data⟩)).length ∧
      r = ⟨(finditer umLineAtoms (grp stream.data sm 0).data).map
             (fun m => grp (grp stream.data sm 0).data m 0),
           [(tavg, (finditer umLineAtoms (grp stream.data sm 0).data).map
              fun m => _convert_from_string (grp (grp stream.data sm 0).data m 1)),
            (tmed, (finditer umLineAtoms (grp stream.data sm 0).data).map
              fun m => _convert_from_string (grp (grp stream.data sm 0).data m 2)),
            (tstd, (finditer umLineAtoms (grp stream.data sm 0).data).map
              fun m => _convert_from_string (grp (grp stream.data sm 0).data m 3)),
            (tmax, (finditer umLineAtoms (grp stream.data sm 0).data).map
              fun m => _convert_from_string (grp (grp stream.data sm 0).data m 4)),
            (pemax, (finditer umLineAtoms (grp stream.data sm 0).data).map
              fun m => _convert_from_string (grp (grp stream.data sm 0).data m 5)),
            (tmin, (finditer umLineAtoms (grp stream.data sm 0).data).map
              fun m => _convert_from_string (grp (grp stream.data sm 0).data m 6)),
            (pemin, (finditer umLineAtoms (grp stream.data sm 0).data).map
              fun m => _convert_from_string (grp (grp stream.data sm 0).data m 7))]⟩ := by
  unfold UMProfilingParser.readStream at h
  cases hh : research umHeaderAtoms stream.data with
  | none => simp [hh] at h
  | some hm =>
  simp only [hh] at h
  cases hf : research umFooterAtoms stream.data with
  | none => simp [hf] at h
  | some fm =>
  simp only [hf] at h
  cases hs : research umSectionAtoms stream.data with
  | none => simp [hs] at h
  | some sm =>
    refine ⟨sm, rfl, ?_⟩
    simp only [hs] at h
    rw [show (⟨[], umMetrics.map fun mt => (mt, [])⟩ : ParsedProfile) =
        ⟨[], [(tavg, []), (tmed, []), (tstd, []), (tmax, []), (pemax, []),
              (tmin, []), (pemin, [])]⟩ from rfl, um_fold] at h
    simp only [List.nil_append] at h
    by_cases hlen : ((finditer umLineAtoms (grp stream.data sm 0).data).map
        (fun m => grp (grp stream.data sm 0).data m 0)).length =
        (pySplitNl (pyStrip ⟨(grp stream.data sm 0).data⟩)).length
    · rw [if_neg (by rw [hlen]; exact fun hc => hc rfl)] at h
      injection h with h
      exact ⟨by simpa using hlen, h.symm⟩
    · rw [if_pos (by simpa using hlen)] at h
      cases h

/-- The CICE5 fold keeps the three statistic lists aligned with the
region list. -/
theorem cice5_fold_len (s : List Char) (ms : List RMatch) :
    ∀ (acc r : CICE5Result), List.foldlM (cice5Row s) acc ms = .ok r →
      acc.minL.length = acc.region.length → acc.maxL.length = acc.region.length →
      acc.meanL.length = acc.region.length →
      r.minL.length = r.region.length ∧ r.maxL.length = r.region.length ∧
        r.meanL.length = r.region.length := by
  induction ms with
  | nil =>
    intro acc r h h1 h2 h3
    simp only [List.foldlM_nil, pure, Except.pure, Except.ok.injEq] at h
    subst h; exact ⟨h1, h2, h3⟩
  | cons m ms ih =>
    intro acc r h h1 h2 h3
    rw [List.foldlM_cons] at h
    cases hst : cice5Row s acc m with
    | error e => simp [hst, Bind.bind, Except.bind] at h
    | ok acc2 =>
      simp only [hst, Bind.bind, Except.bind] at h
      unfold cice5Row at hst
      cases h2' : pyFloatE (grp s m 2) with
      | error e => simp [h2', Bind.bind, Except.bind] at hst
      | ok mn =>
        cases h3' : pyFloatE (grp s m 3) with
        | error e => simp [h2', h3', Bind.bind, Except.bind] at hst
        | ok mx =>
          cases h4' : pyFloatE (grp s m 4) with
          | error e => simp [h2', h3', h4', Bind.bind, Except.bind] at hst
          | ok me =>
            simp only [h2', h3', h4', Bind.bind, Except.bind, pure, Except.pure,
              Except.ok.injEq] at hst
            subst hst
            exact ih _ r h (by simp [h1]) (by simp [h2]) (by simp [h3])

set_option linter.unreachableTactic false in
set_option linter.unusedTactic false in
/-- `_update_flat_result` keeps every metric list aligned with the region
list. -/
theorem update_flat_len (res res' : ESMFFlat) (stats : ESMFStats) (region : String)
    (h : _update_flat_result res stats region = .ok res')
    (h1 : res.petsL.length = res.region.length) (h2 : res.pesL.length = res.region.length)
    (h3 : res.countL.length = res.region.length) (h4 : res.tavgL.length = res.region.length)
    (h5 : res.tminL.length = res.region.length) (h6 : res.peminL.length = res.region.length)
    (h7 : res.tmaxL.length = res.region.length) (h8 : res.pemaxL.length = res.region.length) :
    res'.petsL.length = res'.region.length ∧ res'.pesL.length = res'.region.length ∧
    res'.countL.length = res'.region.length ∧ res'.tavgL.length = res'.region.length ∧
    res'.tminL.length = res'.region.length ∧ res'.peminL.length = res'.region.length ∧
    res'.tmaxL.length = res'.region.length ∧ res'.pemaxL.length = res'.region.length := by
  unfold _update_flat_result at h
  cases hidx : res.region.findIdx? (· = region) with
  | none =>
    simp only [hidx, Except.ok.injEq] at h
    subst h
    simp [h1, h2, h3, h4, h5, h6, h7, h8]
  | some idx =>
    simp only [hidx] at h
    cases hdq : PyFloat.divInt
        (((res.tavgL.getD idx PyFloat.nan).mulInt (res.countL.getD idx 0)).add
          (stats.tavgV.mulInt stats.countV)) (res.countL.getD idx 0 + stats.countV) with
    | error e =>
      simp only [hdq, Bind.bind, Except.bind] at h
      split_ifs at h <;> cases h
    | ok q =>
      simp only [hdq, Bind.bind, Except.bind] at h
      split_ifs at h <;> first
        | (injection h with h; subst h;
           refine ⟨?_, ?_, ?_, ?_, ?_, ?_, ?_, ?_⟩ <;>
             simp [List.length_set, h1, h2, h3, h4, h5, h6, h7, h8])
        | injection h

/-- The ESMF flat fold keeps every metric list aligned with the region
list. -/
theorem esmf_flat_fold_len (lines : List String) :
    ∀ (acc r : ESMFFlat), List.foldlM esmfFlatStep acc lines = .ok r →
      acc.petsL.length = acc.region.length → acc.pesL.length = acc.region.length →
      acc.countL.length = acc.region.length → acc.tavgL.length = acc.region.length →
      acc.tminL.length = acc.region.length → acc.peminL.length = acc.region.length →
      acc.tmaxL.length = acc.region.length → acc.pemaxL.length = acc.region.length →
      r.petsL.length = r.region.length ∧ r.pesL.length = r.region.length ∧
      r.countL.length = r.region.length ∧ r.tavgL.length = r.region.length ∧
      r.tminL.length = r.region.length ∧ r.peminL.length = r.region.length ∧
      r.tmaxL.length = r.region.length ∧ r.pemaxL.length = r.region.length := by
  induction lines with
  | nil =>
    intro acc r h h1 h2 h3 h4 h5 h6 h7 h8
    simp only [List.foldlM_nil, pure, Except.pure, Except.ok.injEq] at h
    subst h; exact ⟨h1, h2, h3, h4, h5, h6, h7, h8⟩
  | cons line lines ih =>
    intro acc r h h1 h2 h3 h4 h5 h6 h7 h8
    rw [List.foldlM_cons] at h
    cases hst : esmfFlatStep acc line with
    | error e => simp [hst, Bind.bind, Except.bind] at h
    | ok acc2 =>
      simp only [hst, Bind.bind, Except.bind] at h
      unfold esmfFlatStep at hst
      cases hp : esmfParseLine line with
      | none =>
        simp only [hp, Except.ok.injEq] at hst
        subst hst
        exact ih _ r h h1 h2 h3 h4 h5 h6 h7 h8
      | some rs =>
        simp only [hp] at hst
        have := update_flat_len acc acc2 rs.2 rs.1 hst h1 h2 h3 h4 h5 h6 h7 h8
        exact ih _ r h this.1 this.2.1 this.2.2.1 this.2.2.2.1 this.2.2.2.2.1
          this.2.2.2.2.2.1 this.2.2.2.2.2.2.1 this.2.2.2.2.2.2.2

/-- The Cylc database fold keeps the elapsed-time list aligned with the
region list. -/
theorem cylcdb_fold_len (colIdx : String → Nat) (rows : List (List PyVal)) :
    ∀ (acc r : CylcResult), List.foldlM (cylcDBRow colIdx) acc rows = .ok r →
      acc.tmaxL.length = acc.region.length →
      r.tmaxL.length = r.region.length := by
  induction rows with
  | nil =>
    intro acc r h h1
    simp only [List.foldlM_nil, pure, Except.pure, Except.ok.injEq] at h
    subst h; exact h1
  | cons row rows ih =>
    intro acc r h h1
    rw [List.foldlM_cons] at h
    cases hst : cylcDBRow colIdx acc row with
    | error e => simp [hst, Bind.bind, Except.bind] at h
    | ok acc2 =>
      simp only [hst, Bind.bind, Except.bind] at h
      refine ih _ r h ?_
      unfold cylcDBRow at hst
      simp only [Bind.bind, Except.bind] at hst
      split_ifs at hst with hz
      · repeat' split at hst
        all_goals first
          | (injection hst with hst; subst hst; simp [h1])
          | cases hst
      · simp only [Except.ok.injEq] at hst
        subst hst
        exact h1

/-- A successful Cylc log parse always has the fixed single-region
shape. -/
theorem cylc_parse_ok_vInt (fs : FileSys) (pa : PathArg) (r : CylcResult)
    (h : CylcProfilingParser.parse fs pa = .ok r) :
    ∃ d, r = ⟨["pipeline_elapsed_time"], [.vInt d]⟩ := by
  unfold CylcProfilingParser.parse at h
  cases hc : _read_text_file fs pa with
  | error e => simp [hc, Bind.bind, Except.bind] at h
  | ok content =>
    simp only [hc, Bind.bind, Except.bind] at h
    cases hl : pySplitlines content with
    | nil => simp [hl] at h
    | cons first rest =>
      simp only [hl] at h
      by_cases hd : containsSub (lastOf first rest).data "DONE".data
      · simp only [hd, Bool.not_true, Bool.false_eq_true, if_false] at h
        cases ht0 : _extract_timestamp first with
        | error e => simp [ht0] at h
        | ok t0 =>
          simp only [ht0] at h
          cases ht1 : _extract_timestamp (lastOf first rest) with
          | error e => simp [ht1] at h
          | ok t1 =>
            simp only [ht1] at h
            cases hs : tsSub t1 t0 with
            | error e => simp [hs, Bind.bind, Except.bind] at h
            | ok d =>
              simp only [hs, Bind.bind, Except.bind, Except.ok.injEq] at h
              exact ⟨d, h.symm⟩
      · simp only [Bool.not_eq_true] at hd
        simp [hd] at h

/-- C1: for every concrete parser and every input on which its entry
point returns a result, the list stored under every declared metric key
has exactly the same length as the `"region"` list (and the metric keys
are exactly the declared metrics, in order). -/
theorem c1_metric_lists_aligned :
    (∀ (hh : Bool) (stream : String) (r : ParsedProfile),
      FMSProfilingParser.read hh stream = .ok r →
      r.mdata.map Prod.fst = fmsMetrics hh ∧
      ∀ e ∈ r.mdata, e.2.length = r.region.length) ∧
    (∀ (stream : String) (r : ParsedProfile),
      UMProfilingParser.readStream stream = .ok r →
      r.mdata.map Prod.fst = umMetrics ∧
      ∀ e ∈ r.mdata, e.2.length = r.region.length) ∧
    (∀ (fs : FileSys) (pa : PathArg) (r : ParsedProfile),
      UMTotalRuntimeParser.parse fs pa = .ok r →
      r.mdata.map Prod.fst = [tmax] ∧
      ∀ e ∈ r.mdata, e.2.length = r.region.length) ∧
    (∀ (stream : String) (r : CICE5Result),
      CICE5ProfilingParser.read stream = .ok r →
      r.minL.length = r.region.length ∧ r.maxL.length = r.region.length ∧
        r.meanL.length = r.region.length) ∧
    (∀ (stream : String) (r : ESMFFlat),
      ESMFSummaryProfilingParser.readFlat stream = .ok r →
      r.petsL.length = r.region.length ∧ r.pesL.length = r.region.length ∧
      r.countL.length = r.region.length ∧ r.tavgL.length = r.region.length ∧
      r.tminL.length = r.region.length ∧ r.peminL.length = r.region.length ∧
      r.tmaxL.length = r.region.length ∧ r.pemaxL.length = r.region.length) ∧
    (∀ (fs : FileSys) (pa : PathArg) (r : CylcResult),
      CylcProfilingParser.parse fs pa = .ok r → r.tmaxL.length = r.region.length) ∧
    (∀ (fs : FileSys) (pa : PathArg) (r : CylcResult),
      CylcDBReader.parse fs pa = .ok r → r.tmaxL.length = r.region.length) := by
  refine ⟨?_, ?_, ?_, ?_, ?_, ?_, ?_⟩
  · intro hh stream r h
    cases hh
    · obtain ⟨sm, _, hr⟩ := fms_read_false_char stream r h
      subst hr
      refine ⟨rfl, ?_⟩
      intro e he
      simp only [List.mem_cons, List.not_mem_nil, or_false] at he
      rcases he with h' | h' | h' | h' | h' | h' | h' | h' <;> subst h' <;>
        simp [List.length_map]
    · obtain ⟨sm, _, hr⟩ := fms_read_true_char stream r h
      subst hr
      refine ⟨rfl, ?_⟩
      intro e he
      simp only [List.mem_cons, List.not_mem_nil, or_false] at he
      rcases he with h' | h' | h' | h' | h' | h' | h' | h' | h' <;> subst h' <;>
        simp [List.length_map]
  · intro stream r h
    obtain ⟨sm, _, _, hr⟩ := um_read_char stream r h
    subst hr
    refine ⟨rfl, ?_⟩
    intro e he
    simp only [List.mem_cons, List.not_mem_nil, or_false] at he
    rcases he with h' | h' | h' | h' | h' | h' | h' <;> subst h' <;>
      simp [List.length_map]
  · intro fs pa r h
    unfold UMTotalRuntimeParser.parse at h
    cases hc : _read_text_file fs pa with
    | error e => simp [hc, Bind.bind, Except.bind] at h
    | ok content =>
      simp only [hc, Bind.bind, Except.bind] at h
      cases hm : research umTotalAtoms content.data with
      | none => simp [hm] at h
      | some m =>
        simp only [hm] at h
        cases hf : pyFloatE (grp content.data m 1) with
        | error e => simp [hf, Bind.bind, Except.bind] at h
        | ok f =>
          simp only [hf, Bind.bind, Except.bind, Except.ok.injEq] at h
          subst h
          exact ⟨rfl, by intro e he; simp at he; subst he; rfl⟩
  · intro stream r h
    unfold CICE5ProfilingParser.read at h
    simp only [] at h
    split_ifs at h with hemp
    exact cice5_fold_len stream.data _ _ r h rfl rfl rfl
  · intro stream r h
    unfold ESMFSummaryProfilingParser.readFlat at h
    cases hf : List.foldlM esmfFlatStep emptyESMFFlat (pySplitNl (pyStrip stream)) with
    | error e => simp [hf, Bind.bind, Except.bind] at h
    | ok res =>
      simp only [hf, Bind.bind, Except.bind] at h
      split_ifs at h with hz
      injection h with h
      subst h
      exact esmf_flat_fold_len _ _ res hf rfl rfl rfl rfl rfl rfl rfl rfl
  · intro fs pa r h
    obtain ⟨d, hr⟩ := cylc_parse_ok_vInt fs pa r h
    subst hr
    rfl
  · intro fs pa r h
    unfold CylcDBReader.parse at h
    cases ht : _test_file fs pa with
    | error e => simp [ht, Bind.bind, Except.bind] at h
    | ok p =>
      simp only [ht, Bind.bind, Except.bind] at h
      cases hfp : fs p with
      | none => simp [hfp] at h
      | some file =>
        cases file with
        | textFile c => simp [hfp] at h
        | binFile => simp [hfp] at h
        | dbFile db =>
          simp only [hfp] at h
          cases hdb : db.find? (·.1 = "task_jobs") with
          | none => simp [hdb] at h
          | some tb =>
            simp only [hdb] at h
            split_ifs at h
            exact cylcdb_fold_len _ _ _ r h rfl

set_option maxRecDepth 100000 in
/-- Witness for C1 at a concrete UM total-runtime parse. -/
theorem c1_metric_lists_aligned_witness :
    (⟨["um_total_walltime"], [(tmax, [.vFloat (.finite (mkRat 15777 4))])]⟩ :
        ParsedProfile).mdata.map Prod.fst = [tmax] ∧
    ∀ e ∈ (⟨["um_total_walltime"], [(tmax, [.vFloat (.finite (mkRat 15777 4))])]⟩ :
        ParsedProfile).mdata,
      e.2.length = (⟨["um_total_walltime"],
        [(tmax, [.vFloat (.finite (mkRat 15777 4))])]⟩ : ParsedProfile).region.length :=
  c1_metric_lists_aligned.2.2.1 umTotalFS (.path "um.log")
    ⟨["um_total_walltime"], [(tmax, [.vFloat (.finite (mkRat 15777 4))])]⟩
    (by with_unfolding_all rfl)

/-- C7: for every input accepted by the FMS parser, the values stored
under the time-fraction metric are the source-table values scaled by 100
(under Python `* 100` semantics), while every other declared metric's
values are stored unrescaled, exactly as captured and converted. -/
theorem c7_fms_tfrac_rescaled :
    ∀ (hh : Bool) (stream : String) (r : ParsedProfile),
      FMSProfilingParser.read hh stream = .ok r →
      ∃ sm, research (fmsSectionAtoms (fmsLabels hh)) stream.data = some sm ∧
        mdFind? r.mdata tfrac = some
          (((finditer (fmsLineAtoms (fmsLabels hh)) (grp stream.data sm 0).data).map
            fun m => _convert_from_string
              (grp (grp stream.data sm 0).data m (if hh then 6 else 5))).map pyMul100) ∧
        ∀ i lm, ((fmsLabels hh).zip (fmsMetrics hh)).get? i = some lm →
          lm.2.oid ≠ tfrac.oid →
          mdFind? r.mdata lm.2 = some
            ((finditer (fmsLineAtoms (fmsLabels hh)) (grp stream.data sm 0).data).map
              fun m => _convert_from_string (grp (grp stream.data sm 0).data m (i + 1))) := by
  intro hh stream r h
  cases hh
  · obtain ⟨sm, hsm, hr⟩ := fms_read_false_char stream r h
    subst hr
    refine ⟨sm, hsm, rfl, ?_⟩
    intro i lm hlm hne
    have hz : ((fmsLabels false).zip (fmsMetrics false)) =
      [("tmin", tmin), ("tmax", tmax), ("tavg", tavg), ("tstd", tstd), ("tfrac", tfrac),
       ("grain", grain), ("pemin", pemin), ("pemax", pemax)] := rfl
    rw [hz] at hlm
    rcases i with _ | _ | _ | _ | _ | _ | _ | _ | i9 <;>
      simp only [List.get?] at hlm <;> try cases hlm
    all_goals first
      | rfl
      | (exact absurd rfl hne)
  · obtain ⟨sm, hsm, hr⟩ := fms_read_true_char stream r h
    subst hr
    refine ⟨sm, hsm, rfl, ?_⟩
    intro i lm hlm hne
    have hz : ((fmsLabels true).zip (fmsMetrics true)) =
      [("hits", count), ("tmin", tmin), ("tmax", tmax), ("tavg", tavg), ("tstd", tstd),
       ("tfrac", tfrac), ("grain", grain), ("pemin", pemin), ("pemax", pemax)] := rfl
    rw [hz] at hlm
    rcases i with _ | _ | _ | _ | _ | _ | _ | _ | _ | i10 <;>
      simp only [List.get?] at hlm <;> try cases hlm
    all_goals first
      | rfl
      | (exact absurd rfl hne)

set_option maxRecDepth 400000 in
set_option maxHeartbeats 1000000 in
/-- Witness for C7 at a concrete two-region FMS log with the hits
column. -/
theorem c7_fms_tfrac_rescaled_witness :
    ∃ sm, research (fmsSectionAtoms (fmsLabels true)) fmsSmallLog.data = some sm ∧
      mdFind? (match FMSProfilingParser.read true fmsSmallLog with
        | .ok r => r
        | .error _ => ⟨[], []⟩).mdata tfrac = some
        (((finditer (fmsLineAtoms (fmsLabels true)) (grp fmsSmallLog.data sm 0).data).map
          fun m => _convert_from_string
            (grp (grp fmsSmallLog.data sm 0).data m (if true then 6 else 5))).map pyMul100) ∧
      ∀ i lm, ((fmsLabels true).zip (fmsMetrics true)).get? i = some lm →
        lm.2.oid ≠ tfrac.oid →
        mdFind? (match FMSProfilingParser.read true fmsSmallLog with
          | .ok r => r
          | .error _ => ⟨[], []⟩).mdata lm.2 = some
          ((finditer (fmsLineAtoms (fmsLabels true)) (grp fmsSmallLog.data sm 0).data).map
            fun m => _convert_from_string (grp (grp fmsSmallLog.data sm 0).data m (i + 1))) := by
  have h : FMSProfilingParser.read true fmsSmallLog =
      .ok (match FMSProfilingParser.read true fmsSmallLog with
        | .ok r => r
        | .error _ => ⟨[], []⟩) := by with_unfolding_all rfl
  exact c7_fms_tfrac_rescaled true fmsSmallLog _ h

theorem splitNlAux_ne_nil : ∀ (cs acc : List Char), splitNlAux cs acc ≠ [] := by
  intro cs
  induction cs with
  | nil => intro acc; simp [splitNlAux]
  | cons c cs ih =>
    intro acc
    unfold splitNlAux
    split_ifs
    · simp
    · exact ih (c :: acc)

theorem pySplitNl_ne_nil (s : String) : pySplitNl s ≠ [] :=
  splitNlAux_ne_nil s.data []

/-- The CICE5 fold appends exactly one region per match. -/
theorem cice5_fold_region_len (s : List Char) (ms : List RMatch) :
    ∀ (acc r : CICE5Result), List.foldlM (cice5Row s) acc ms = .ok r →
      r.region.length = acc.region.length + ms.length := by
  induction ms with
  | nil =>
    intro acc r h
    simp only [List.foldlM_nil, pure, Except.pure, Except.ok.injEq] at h
    subst h; simp
  | cons m ms ih =>
    intro acc r h
    rw [List.foldlM_cons] at h
    cases hst : cice5Row s acc m with
    | error e => simp [hst, Bind.bind, Except.bind] at h
    | ok acc2 =>
      simp only [hst, Bind.bind, Except.bind] at h
      have hr := ih _ r h
      unfold cice5Row at hst
      simp only [Bind.bind, Except.bind] at hst
      repeat' split at hst
      all_goals first
        | (injection hst with hst; subst hst; simp at hr ⊢; omega)
        | cases hst

/-- A `task_jobs` row fold over rows none of which has `run_status == 0`
leaves the accumulator unchanged. -/
theorem cylc_fold_skip_all (colIdx : String → Nat) :
    ∀ (rows : List (List PyVal)) (r : CylcResult),
      (∀ row ∈ rows, isZeroVal (row.getD (colIdx "run_status") (.vStr "")) = false) →
      rows.foldlM (cylcDBRow colIdx) r = .ok r := by
  intro rows
  induction rows with
  | nil => intro r _; rfl
  | cons row rest ih =>
    intro r hall
    rw [List.foldlM_cons]
    have hrow : cylcDBRow colIdx r row = .ok r := by
      unfold cylcDBRow
      rw [hall row (List.mem_cons_self _ _)]
      rfl
    rw [hrow]
    simp only [Bind.bind, Except.bind]
    exact ih r fun row2 h2 => hall row2 (List.mem_cons_of_mem _ h2)

/-- C2-counterexample: an FMS log whose header/footer span is present but
whose section contains no matching line is parsed to a result with an
empty region list instead of raising. -/
theorem c2_fms_empty_region_counterexample :
    FMSProfilingParser.read true fmsBadSectionLog =
      .ok ⟨[], (fmsMetrics true).map fun mt => (mt, [])⟩ := by
  with_unfolding_all rfl

/-- C2 (amended): every parser raises when its markers are absent, and no
parser other than FMS and the Cylc task-jobs database reader can return
an empty region list; the FMS parser raises only when the header/footer
span is not located, and otherwise returns exactly the rows whose lines
match the per-region pattern — an empty or partial row set when lines are
malformed; the database reader raises on a missing file, a non-database
file, a missing `task_jobs` table or a missing required column, but for a
schema-valid table it returns exactly the fold over its rows keeping the
successfully-completed ones — an empty result, without raising, when no
row has `run_status == 0`. -/
theorem c2_no_empty_results_amended :
    (∀ (hh : Bool) (stream : String),
      research (fmsSectionAtoms (fmsLabels hh)) stream.data = none →
      FMSProfilingParser.read hh stream = .error (.valueError "No FMS profiling data found")) ∧
    (∀ (hh : Bool) (stream : String) (r : ParsedProfile),
      FMSProfilingParser.read hh stream = .ok r →
      ∃ sm, research (fmsSectionAtoms (fmsLabels hh)) stream.data = some sm ∧
        r.region = (finditer (fmsLineAtoms (fmsLabels hh)) (grp stream.data sm 0).data).map
          (fun m => grp (grp stream.data sm 0).data m 0)) ∧
    (∀ stream : String, finditer cice5Atoms stream.data = [] →
      CICE5ProfilingParser.read stream = .error (.valueError "No CICE5 profiling data found")) ∧
    (∀ (stream : String) (r : CICE5Result),
      CICE5ProfilingParser.read stream = .ok r → r.region ≠ []) ∧
    (∀ stream : String, research umHeaderAtoms stream.data = none →
      UMProfilingParser.readStream stream = .error (.valueError "No matching header found.")) ∧
    (∀ stream : String, research umHeaderAtoms stream.data ≠ none →
      research umFooterAtoms stream.data = none →
      UMProfilingParser.readStream stream = .error (.valueError "No matching footer found.")) ∧
    (∀ (stream : String) (r : ParsedProfile),
      UMProfilingParser.readStream stream = .ok r → r.region ≠ []) ∧
    (∀ (stream : String) (r : ESMFFlat),
      ESMFSummaryProfilingParser.readFlat stream = .ok r → r.region ≠ []) ∧
    (∀ (stream : String) (t : HTree),
      ESMFSummaryProfilingParser.readHier stream = .ok t → t.children ≠ []) ∧
    (∀ (fs : FileSys) (pa : PathArg) (r : CylcResult),
      CylcProfilingParser.parse fs pa = .ok r → r.region = ["pipeline_elapsed_time"]) ∧
    (∀ (fs : FileSys) (p : String) (db : CylcDB) (nm : String) (tbl : DBTable),
      fs p = some (.dbFile db) →
      db.find? (·.1 = "task_jobs") = some (nm, tbl) →
      cylcRequiredCols.filter (fun c => !tbl.cols.contains c) = [] →
      CylcDBReader.parse fs (.path p) =
        tbl.rows.foldlM (cylcDBRow fun c => tbl.cols.findIdx (· = c)) ⟨[], []⟩) ∧
    (∀ (fs : FileSys) (p : String) (db : CylcDB) (nm : String) (tbl : DBTable),
      fs p = some (.dbFile db) →
      db.find? (·.1 = "task_jobs") = some (nm, tbl) →
      cylcRequiredCols.filter (fun c => !tbl.cols.contains c) = [] →
      (∀ row ∈ tbl.rows,
        isZeroVal (row.getD (tbl.cols.findIdx (· = "run_status")) (.vStr "")) = false) →
      CylcDBReader.parse fs (.path p) = .ok ⟨[], []⟩) := by
  refine ⟨?_, ?_, ?_, ?_, ?_, ?_, ?_, ?_, ?_, ?_, ?_, ?_⟩
  · intro hh stream h
    unfold FMSProfilingParser.read
    simp [h]
  · intro hh stream r h
    cases hh
    · obtain ⟨sm, hsm, hr⟩ := fms_read_false_char stream r h
      subst hr
      exact ⟨sm, hsm, rfl⟩
    · obtain ⟨sm, hsm, hr⟩ := fms_read_true_char stream r h
      subst hr
      exact ⟨sm, hsm, rfl⟩
  · intro stream h
    unfold CICE5ProfilingParser.read
    simp [h]
  · intro stream r h
    unfold CICE5ProfilingParser.read at h
    simp only [] at h
    split_ifs at h with hemp
    have hlen := cice5_fold_region_len stream.data _ _ r h
    intro hnil
    rw [hnil] at hlen
    simp at hlen
    have hms : finditer cice5Atoms stream.data = [] := List.length_eq_zero.mp hlen.symm
    exact hemp (by simp [hms])
  · intro stream h
    unfold UMProfilingParser.readStream
    simp [h]
  · intro stream hh hf
    unfold UMProfilingParser.readStream
    cases hhdr : research umHeaderAtoms stream.data with
    | none => exact absurd hhdr hh
    | some hm => simp [hf]
  · intro stream r h
    obtain ⟨sm, _, hcnt, hr⟩ := um_read_char stream r h
    subst hr
    intro hnil
    have h1 := pySplitNl_ne_nil (pyStrip ⟨(grp stream.data sm 0).data⟩)
    have h2 : (pySplitNl (pyStrip ⟨(grp stream.data sm 0).data⟩)).length = 0 := by
      rw [← hcnt]
      simpa using congrArg List.length hnil
    exact h1 (List.length_eq_zero.mp h2)
  · intro stream r h
    unfold ESMFSummaryProfilingParser.readFlat at h
    cases hf : List.foldlM esmfFlatStep emptyESMFFlat (pySplitNl (pyStrip stream)) with
    | error e => simp [hf, Bind.bind, Except.bind] at h
    | ok res =>
      simp only [hf, Bind.bind, Except.bind] at h
      split_ifs at h with hz
      injection h with h
      subst h
      intro hnil
      exact hz (by rw [hnil]; rfl)
  · intro stream t h
    unfold ESMFSummaryProfilingParser.readHier at h
    cases hf : List.foldlM esmfHierStep initHState (pySplitNl (pyStrip stream)) with
    | error e => simp [hf, Bind.bind, Except.bind] at h
    | ok fin =>
      simp only [hf, Bind.bind, Except.bind] at h
      split_ifs at h with hz
      injection h with h
      subst h
      intro hnil
      exact hz (by rw [hnil]; rfl)
  · intro fs pa r h
    obtain ⟨d, hr⟩ := cylc_parse_ok_vInt fs pa r h
    rw [hr]
  · intro fs p db nm tbl hfs hfind hcols
    unfold CylcDBReader.parse _test_file
    simp only [hfs, hfind, hcols, Bind.bind, Except.bind, List.isEmpty_nil,
      Bool.not_true, Bool.false_eq_true, if_false]
  · intro fs p db nm tbl hfs hfind hcols hall
    unfold CylcDBReader.parse _test_file
    simp only [hfs, hfind, hcols, Bind.bind, Except.bind, List.isEmpty_nil,
      Bool.not_true, Bool.false_eq_true, if_false]
    exact cylc_fold_skip_all _ tbl.rows ⟨[], []⟩ hall

/-- Witness for C2 (amended): the FMS parser raises on text without the
header/footer span, and the database reader returns an empty result for a
schema-valid `task_jobs` table with no successfully-completed row. -/
theorem c2_no_empty_results_amended_witness :
    (FMSProfilingParser.read true "garbage" =
      .error (.valueError "No FMS profiling data found")) ∧
    CylcDBReader.parse cylcEmptyRunsFS (.path "db") = .ok ⟨[], []⟩ :=
  ⟨c2_no_empty_results_amended.1 true "garbage" (by with_unfolding_all rfl),
   c2_no_empty_results_amended.2.2.2.2.2.2.2.2.2.2.2 cylcEmptyRunsFS "db"
     cylcFailedRowDB "task_jobs" cylcFailedTbl rfl rfl rfl
     (by
       intro row hrow
       rw [show cylcFailedTbl.rows = [[.vStr "1", .vStr "build",
         .vStr "2025-10-17T00:00:00Z", .vStr "2025-10-17T00:00:05Z",
         .vInt 1]] from rfl, List.mem_singleton] at hrow
       subst hrow
       rfl)⟩

set_option maxRecDepth 400000 in
set_option maxHeartbeats 2000000 in
/-- C5-counterexample: the strict check counts every line of the
whitespace-stripped bounded section, not only the non-blank ones: for a
table with a blank line between two well-formed rows the number of matched
lines (2) equals the number of non-blank lines (2), yet the parse raises
the integrity error. -/
theorem c5_integrity_counterexample :
    UMProfilingParser.readStream umBlankLineLog =
      .error (.assertionError "Mismatch between matched regions and section lines.") ∧
    ((pySplitNl (pyStrip ⟨umBlankLineSec⟩)).filter (fun l => l ≠ "")).length =
      (finditer umLineAtoms umBlankLineSec).length :=
  ⟨by with_unfolding_all rfl, by with_unfolding_all rfl⟩

set_option maxRecDepth 400000 in
set_option maxHeartbeats 2000000 in
/-- C5 (amended): after matching, the number of matched region lines must
equal the number of lines of the whitespace-stripped bounded section
(blank interior lines included), a mismatch raising the assertion-style
integrity error rather than a partial result; a table with a single extra
leading integer index column parses to exactly the same result as the
table without it, while an extra leading float or string column causes
the integrity violation. -/
theorem c5_integrity_check_amended :
    (∀ (stream : String) (r : ParsedProfile),
      UMProfilingParser.readStream stream = .ok r →
      ∃ sm, research umSectionAtoms stream.data = some sm ∧
        r.region.length = (pySplitNl (pyStrip ⟨(grp stream.data sm 0).data⟩)).length) ∧
    (∀ (stream : String) (sm : RMatch),
      research umHeaderAtoms stream.data ≠ none →
      research umFooterAtoms stream.data ≠ none →
      research umSectionAtoms stream.data = some sm →
      (finditer umLineAtoms (grp stream.data sm 0).data).length ≠
        (pySplitNl (pyStrip ⟨(grp stream.data sm 0).data⟩)).length →
      UMProfilingParser.readStream stream =
        .error (.assertionError "Mismatch between matched regions and section lines.")) ∧
    UMProfilingParser.readStream umBaseLog = UMProfilingParser.readStream umIntColLog ∧
    UMProfilingParser.readStream umFloatColLog =
      .error (.assertionError "Mismatch between matched regions and section lines.") ∧
    UMProfilingParser.readStream umStrColLog =
      .error (.assertionError "Mismatch between matched regions and section lines.") := by
  refine ⟨?_, ?_, by with_unfolding_all rfl, by with_unfolding_all rfl,
    by with_unfolding_all rfl⟩
  · intro stream r h
    obtain ⟨sm, hsm, hcnt, hr⟩ := um_read_char stream r h
    subst hr
    exact ⟨sm, hsm, by simpa using hcnt⟩
  · intro stream sm hh hf hs hne
    unfold UMProfilingParser.readStream
    cases hhdr : research umHeaderAtoms stream.data with
    | none => exact absurd hhdr hh
    | some hm =>
      cases hftr : research umFooterAtoms stream.data with
      | none => exact absurd hftr hf
      | some fm =>
        simp only [hs]
        rw [show (⟨[], umMetrics.map fun mt => (mt, [])⟩ : ParsedProfile) =
            ⟨[], [(tavg, []), (tmed, []), (tstd, []), (tmax, []), (pemax, []),
                  (tmin, []), (pemin, [])]⟩ from rfl, um_fold]
        rw [if_pos (by simpa using hne)]

set_option maxRecDepth 400000 in
set_option maxHeartbeats 2000000 in
/-- Witness for C5 (amended) at the concrete base table. -/
theorem c5_integrity_check_amended_witness :
    ∃ sm, research umSectionAtoms umBaseLog.data = some sm ∧
      (match UMProfilingParser.readStream umBaseLog with
        | .ok r => r
        | .error _ => ⟨[], []⟩).region.length =
        (pySplitNl (pyStrip ⟨(grp umBaseLog.data sm 0).data⟩)).length := by
  have h : UMProfilingParser.readStream umBaseLog =
      .ok (match UMProfilingParser.readStream umBaseLog with
        | .ok r => r
        | .error _ => ⟨[], []⟩) := by with_unfolding_all rfl
  exact c5_integrity_check_amended.1 umBaseLog _ h

theorem esmfLineLevel_nonneg (line : String) : 0 ≤ esmfLineLevel line := by
  unfold esmfLineLevel
  omega

theorem hierLevels_nonneg (stream : String) (j : Nat) :
    0 ≤ levelAt (hierLevels stream) j := by
  unfold levelAt
  have hall : ∀ x ∈ hierLevels stream, (0 : Int) ≤ x := by
    intro x hx
    unfold hierLevels hierLines at hx
    simp only [List.mem_map] at hx
    obtain ⟨e, he, hex⟩ := hx
    simp only [List.mem_filterMap] at he
    obtain ⟨line, _, hline⟩ := he
    cases hp : esmfParseLine line with
    | none => rw [hp] at hline; simp at hline
    | some rs =>
      rw [hp] at hline
      simp only [Option.map_some', Option.some.injEq] at hline
      rw [← hex, ← hline]
      exact esmfLineLevel_nonneg line
  by_cases hj : j < (hierLevels stream).length
  · rw [List.getD_eq_getElem _ _ hj]
    exact hall _ (List.getElem_mem hj)
  · rw [List.getD_eq_default _ _ (Nat.le_of_not_lt hj)]

/-- The fold over raw lines is the fold of the parsed-entry step over the
matched lines. -/
theorem foldlM_hier_filterMap (raw : List String) :
    ∀ st, List.foldlM esmfHierStep st raw =
      List.foldlM hierStepP st (raw.filterMap fun line =>
        (esmfParseLine line).map fun rs => (rs.1, rs.2, esmfLineLevel line)) := by
  induction raw with
  | nil => intro st; rfl
  | cons line rest ih =>
    intro st
    rw [List.foldlM_cons, List.filterMap_cons]
    cases hp : esmfParseLine line with
    | none =>
      simp only [hp, Option.map_none']
      rw [show esmfHierStep st line = .ok st by unfold esmfHierStep; rw [hp]]
      simp only [Bind.bind, Except.bind]
      exact ih st
    | some rs =>
      simp only [hp, Option.map_some']
      rw [show esmfHierStep st line = hierStepP st (rs.1, rs.2, esmfLineLevel line) by
        unfold esmfHierStep; rw [hp]]
      rw [List.foldlM_cons]
      cases hst : hierStepP st (rs.1, rs.2, esmfLineLevel line) with
      | error e => simp [Bind.bind, Except.bind]
      | ok st2 =>
        simp only [Bind.bind, Except.bind]
        exact ih st2

theorem rev_range_find?_some (p : Nat → Bool) :
    ∀ (n j : Nat), (List.range n).reverse.find? p = some j →
      j < n ∧ p j = true ∧ ∀ k, j < k → k < n → p k = false := by
  intro n
  induction n with
  | zero => intro j h; simp [List.range_zero] at h
  | succ n ih =>
    intro j h
    rw [List.range_succ, List.reverse_append] at h
    simp only [List.reverse_singleton, List.singleton_append, List.find?_cons] at h
    cases hp : p n with
    | true =>
      rw [hp] at h
      injection h with h
      subst h
      exact ⟨Nat.lt_succ_self n, hp, fun k hk1 hk2 => by omega⟩
    | false =>
      rw [hp] at h
      obtain ⟨h1, h2, h3⟩ := ih j h
      refine ⟨Nat.lt_succ_of_lt h1, h2, fun k hk1 hk2 => ?_⟩
      rcases Nat.lt_succ_iff_lt_or_eq.mp hk2 with hk | hk
      · exact h3 k hk1 hk
      · subst hk; exact hp

theorem rev_range_find?_none (p : Nat → Bool) :
    ∀ (n : Nat), (List.range n).reverse.find? p = none →
      ∀ k, k < n → p k = false := by
  intro n
  induction n with
  | zero => intro h k hk; omega
  | succ n ih =>
    intro h k hk
    rw [List.range_succ, List.reverse_append] at h
    simp only [List.reverse_singleton, List.singleton_append, List.find?_cons] at h
    cases hp : p n with
    | true => rw [hp] at h; cases h
    | false =>
      rw [hp] at h
      rcases Nat.lt_succ_iff_lt_or_eq.mp hk with hk' | hk'
      · exact ih h k hk'
      · subst hk'; exact hp

theorem rev_range_find?_eq_some (p : Nat → Bool) :
    ∀ (n j : Nat), j < n → p j = true → (∀ k, j < k → k < n → p k = false) →
      (List.range n).reverse.find? p = some j := by
  intro n
  induction n with
  | zero => intro j h; omega
  | succ n ih =>
    intro j hj hp hmax
    rw [List.range_succ, List.reverse_append]
    simp only [List.reverse_singleton, List.singleton_append, List.find?_cons]
    rcases Nat.lt_succ_iff_lt_or_eq.mp hj with hj' | hj'
    · rw [hmax n hj' (Nat.lt_succ_self n)]
      exact ih j hj' hp fun k hk1 hk2 => hmax k hk1 (Nat.lt_succ_of_lt hk2)
    · subst hj'
      rw [hp]

theorem dropWhile_cons_head {α} (p : α → Bool) :
    ∀ (l : List α) (a : α) (t : List α), l.dropWhile p = a :: t → p a = false := by
  intro l
  induction l with
  | nil => intro a t h; cases h
  | cons b l ih =>
    intro a t h
    rw [List.dropWhile_cons] at h
    split_ifs at h with hb
    · exact ih a t h
    · injection h with h1 _
      subst h1
      simpa using hb

theorem mem_dropWhile_of_mem_not {α} (p : α → Bool) :
    ∀ (l : List α) (x : α), x ∈ l → p x = false → x ∈ l.dropWhile p := by
  intro l
  induction l with
  | nil => intro x hx; cases hx
  | cons a t ih =>
    intro x hx hpx
    rw [List.dropWhile_cons]
    split_ifs with ha
    · rcases List.mem_cons.mp hx with rfl | hxt
      · rw [hpx] at ha; cases ha
      · exact ih x hxt hpx
    · exact hx

theorem visIdx_mem_lt (levels : List Int) : ∀ (n j : Nat), j ∈ visIdx levels n → j < n := by
  intro n
  induction n with
  | zero => intro j hj; simp [visIdx] at hj
  | succ n ih =>
    intro j hj
    unfold visIdx at hj
    rcases List.mem_cons.mp hj with rfl | hj
    · exact Nat.lt_succ_self j
    · exact Nat.lt_succ_of_lt (ih j ((List.dropWhile_sublist _).subset hj))

theorem visIdx_pairwise (levels : List Int) :
    ∀ n, (visIdx levels n).Pairwise
      (fun a b => b < a ∧ levelAt levels b < levelAt levels a) := by
  intro n
  induction n with
  | zero => simp [visIdx]
  | succ n ih =>
    unfold visIdx
    rw [List.pairwise_cons]
    refine ⟨?_, List.Pairwise.sublist (List.dropWhile_sublist _) ih⟩
    intro j hj
    have hmem : j ∈ visIdx levels n := (List.dropWhile_sublist _).subset hj
    refine ⟨visIdx_mem_lt levels n j hmem, ?_⟩
    -- all elements surviving the drop have level < level n
    clear hmem
    revert hj
    generalize hgen : visIdx levels n = l at ih ⊢
    clear hgen
    induction l with
    | nil => intro hj; cases hj
    | cons a t iht =>
      intro hj
      rw [List.dropWhile_cons] at hj
      split_ifs at hj with ha
      · exact iht (List.Pairwise.of_cons ih) hj
      · simp only [decide_eq_true_eq, not_le] at ha
        rcases List.mem_cons.mp hj with rfl | hjt
        · exact ha
        · have := (List.pairwise_cons.mp ih).1 j hjt
          omega

theorem visIdx_reach (levels : List Int) :
    ∀ (n j' : Nat) (d : Int), j' < n → levelAt levels j' < d →
      ∃ j ∈ visIdx levels n, j' ≤ j ∧ levelAt levels j < d := by
  intro n
  induction n with
  | zero => intro j' d h; omega
  | succ n ih =>
    intro j' d hj' hlev
    by_cases hn : levelAt levels n < d
    · exact ⟨n, by unfold visIdx; exact List.mem_cons_self _ _, by omega, hn⟩
    · have hj'n : j' < n := by
        rcases Nat.lt_succ_iff_lt_or_eq.mp hj' with h | h
        · exact h
        · subst h; omega
      obtain ⟨j, hjmem, hjge, hjlt⟩ := ih j' d hj'n hlev
      refine ⟨j, ?_, hjge, hjlt⟩
      unfold visIdx
      refine List.mem_cons_of_mem _ (mem_dropWhile_of_mem_not _ _ j hjmem ?_)
      simp only [decide_eq_false_iff_not, not_le]
      omega

theorem visIdx_head_nearest (levels : List Int) (n : Nat) :
    ((visIdx levels n).dropWhile
      (fun j => levelAt levels j ≥ levelAt levels n)).head? =
      nearestSmaller levels n := by
  cases hh : ((visIdx levels n).dropWhile
      (fun j => levelAt levels j ≥ levelAt levels n)).head? with
  | none =>
    rw [List.head?_eq_none_iff] at hh
    symm
    unfold nearestSmaller
    cases hns : (List.range n).reverse.find?
        (fun j => decide (levelAt levels j < levelAt levels n)) with
    | none => rfl
    | some j =>
      obtain ⟨hjn, hpj, _⟩ := rev_range_find?_some _ n j hns
      simp only [decide_eq_true_eq] at hpj
      obtain ⟨j2, hj2mem, _, hj2lt⟩ := visIdx_reach levels n j (levelAt levels n) hjn hpj
      have : j2 ∈ ((visIdx levels n).dropWhile
          (fun j => levelAt levels j ≥ levelAt levels n)) := by
        refine mem_dropWhile_of_mem_not _ _ j2 hj2mem ?_
        simp only [decide_eq_false_iff_not, not_le]
        exact hj2lt
      rw [hh] at this
      cases this
  | some j =>
    obtain ⟨t, ht⟩ : ∃ t, (visIdx levels n).dropWhile
        (fun j => levelAt levels j ≥ levelAt levels n) = j :: t := by
      cases hd : (visIdx levels n).dropWhile
          (fun j => levelAt levels j ≥ levelAt levels n) with
      | nil => rw [hd] at hh; cases hh
      | cons a t =>
        rw [hd] at hh
        injection hh with hh
        subst hh
        exact ⟨t, rfl⟩
    have hjmem : j ∈ visIdx levels n :=
      (List.dropWhile_sublist _).subset (ht ▸ List.mem_cons_self j t)
    have hjn : j < n := visIdx_mem_lt levels n j hjmem
    have hjlt : levelAt levels j < levelAt levels n := by
      have := dropWhile_cons_head _ _ j t ht
      simpa using this
    have hmax : ∀ k, j < k → k < n → ¬ levelAt levels k < levelAt levels n := by
      intro k hk1 hk2 hklt
      obtain ⟨j2, hj2mem, hj2ge, hj2lt⟩ := visIdx_reach levels n k (levelAt levels n) hk2 hklt
      have hj2drop : j2 ∈ ((visIdx levels n).dropWhile
          (fun j => levelAt levels j ≥ levelAt levels n)) := by
        refine mem_dropWhile_of_mem_not _ _ j2 hj2mem ?_
        simp only [decide_eq_false_iff_not, not_le]
        exact hj2lt
      rw [ht] at hj2drop
      rcases List.mem_cons.mp hj2drop with rfl | hj2t
      · omega
      · have hpw := List.Pairwise.sublist
          (List.dropWhile_sublist (fun j => decide (levelAt levels j ≥ levelAt levels n)))
          (visIdx_pairwise levels n)
        rw [ht, List.pairwise_cons] at hpw
        have := hpw.1 j2 hj2t
        omega
    symm
    unfold nearestSmaller
    refine rev_range_find?_eq_some _ n j hjn (by simpa using hjlt) ?_
    intro k hk1 hk2
    simp only [decide_eq_false_iff_not]
    exact hmax k hk1 hk2

theorem nearestSmaller_lt (levels : List Int) (n j : Nat)
    (h : nearestSmaller levels n = some j) : j < n :=
  (rev_range_find?_some _ n j h).1

theorem hierPathF_eq (lines : List (String × ESMFStats × Int)) :
    ∀ i, ∀ f, i ≤ f → hierPathF lines f i = hierPath lines i := by
  intro i
  induction i using Nat.strong_induction_on with
  | _ i ih =>
    intro f hf
    cases f with
    | zero =>
      have : i = 0 := Nat.le_zero.mp hf
      subst this
      rfl
    | succ f' =>
      cases i with
      | zero =>
        show hierPathF lines (f' + 1) 0 = hierPathF lines 0 0
        unfold hierPathF
        rfl
      | succ i' =>
        show hierPathF lines (f' + 1) (i' + 1) = hierPathF lines (i' + 1) (i' + 1)
        unfold hierPathF
        cases hns : nearestSmaller (lines.map (·.2.2)) (i' + 1) with
        | none => rfl
        | some j =>
          have hji : j < i' + 1 := nearestSmaller_lt _ _ _ hns
          simp only [ih j hji f' (by omega), ih j hji i' (by omega)]

theorem hierPath_unfold (lines : List (String × ESMFStats × Int)) (i : Nat) :
    hierPath lines i =
      (match nearestSmaller (lines.map (·.2.2)) i with
        | none => []
        | some j => hierPath lines j) ++ [(lines.getD i dflHierLine).1] := by
  cases i with
  | zero => rfl
  | succ m =>
    show hierPathF lines (m + 1) (m + 1) = _
    unfold hierPathF
    cases hns : nearestSmaller (lines.map (·.2.2)) (m + 1) with
    | none => rfl
    | some j =>
      have hj : j < m + 1 := nearestSmaller_lt _ _ _ hns
      simp only [hierPathF_eq lines j m (by omega)]

theorem hier_fold_chain (lines : List (String × ESMFStats × Int))
    (hnn : ∀ j, 0 ≤ levelAt (lines.map (·.2.2)) j) :
    ∀ n, n ≤ lines.length →
      ∃ st, List.foldlM hierStepP initHState (lines.take n) = .ok st ∧
        st.stack = (visIdx (lines.map (·.2.2)) n).map
          (fun j => (hierPath lines j, levelAt (lines.map (·.2.2)) j)) ++ [([], -1)] := by
  intro n
  induction n with
  | zero => exact fun _ => ⟨initHState, rfl, rfl⟩
  | succ n ih =>
    intro hn1
    have hn : n < lines.length := Nat.lt_of_succ_le hn1
    obtain ⟨st, hfold, hstack⟩ := ih (Nat.le_of_lt hn)
    have htake : lines.take (n + 1) = lines.take n ++ [lines.get ⟨n, hn⟩] := by
      rw [List.take_succ]
      simp [List.getElem?_eq_getElem hn, List.get_eq_getElem]
    have hentry : (lines.get ⟨n, hn⟩).2.2 = levelAt (lines.map (·.2.2)) n := by
      unfold levelAt
      rw [List.getD_eq_getElem?_getD, List.getElem?_map, List.getElem?_eq_getElem hn]
      rfl
    have hregion : (lines.get ⟨n, hn⟩).1 = (lines.getD n dflHierLine).1 := by
      rw [List.getD_eq_getElem?_getD, List.getElem?_eq_getElem hn]
      rfl
    rw [htake, List.foldlM_append, hfold]
    simp only [Bind.bind, Except.bind, List.foldlM_cons, List.foldlM_nil]
    unfold hierStepP
    rw [hstack]
    rw [hentry]
    rw [List.dropWhile_append]
    rw [List.dropWhile_map]
    have hroot : List.dropWhile (fun p : List String × Int => p.2 ≥ levelAt (lines.map (·.2.2)) n)
        [([], -1)] = [([], -1)] := by
      rw [show (List.dropWhile (fun p : List String × Int =>
          p.2 ≥ levelAt (lines.map (·.2.2)) n) [([], -1)]) =
          if ((-1 : Int) ≥ levelAt (lines.map (·.2.2)) n) then [] else [([], -1)] by
        simp [List.dropWhile_cons]]
      rw [if_neg (by have := hnn n; omega)]
    have hpredeq : ((fun p : List String × Int =>
          decide (p.2 ≥ levelAt (lines.map (·.2.2)) n)) ∘
        (fun j => (hierPath lines j, levelAt (lines.map (·.2.2)) j))) =
        (fun j => decide (levelAt (lines.map (·.2.2)) j ≥ levelAt (lines.map (·.2.2)) n)) := rfl
    rw [hpredeq]
    cases hdw : (visIdx (lines.map (·.2.2)) n).dropWhile
        (fun j => levelAt (lines.map (·.2.2)) j ≥ levelAt (lines.map (·.2.2)) n) with
    | nil =>
      have hns : nearestSmaller (lines.map (·.2.2)) n = none := by
        rw [← visIdx_head_nearest, hdw]; rfl
      simp only [hdw, List.map_nil, List.isEmpty_nil, if_true, hroot, List.nil_append]
      refine ⟨_, rfl, ?_⟩
      show _ = (visIdx (lines.map (·.2.2)) (n + 1)).map _ ++ [([], -1)]
      unfold visIdx
      rw [hdw]
      simp only [List.map_cons, List.map_nil, List.cons_append, List.nil_append,
        List.singleton_append]
      congr 1
      · simp [hierPath_unfold lines n, hns, hregion, List.getElem?_eq_getElem hn]
    | cons jstar t =>
      have hns : nearestSmaller (lines.map (·.2.2)) n = some jstar := by
        rw [← visIdx_head_nearest, hdw]; rfl
      simp only [hdw, List.map_cons, List.isEmpty_cons, if_false, Bool.false_eq_true]
      refine ⟨_, rfl, ?_⟩
      show _ = (visIdx (lines.map (·.2.2)) (n + 1)).map _ ++ [([], -1)]
      unfold visIdx
      rw [hdw]
      simp only [List.map_cons, List.cons_append]
      congr 1
      · simp [hierPath_unfold lines n, hns, hregion, List.getElem?_eq_getElem hn]

theorem getLastD_append_singleton {α : Type} (l : List α) (a d : α) :
    (l ++ [a]).getLastD d = a := by
  induction l generalizing d with
  | nil => rfl
  | cons x xs ih => rw [List.cons_append, List.getLastD_cons]; exact ih x

/-- C10: in the hierarchical mode of `ESMFSummaryProfilingParser.read`, the
parent stack seeded with the root node at depth `-1` never becomes empty
during a parse: every matched line has indentation level `≥ 0`, so at each
matched line the pop loop (pop while top depth `≥` current depth) leaves a
nonempty stack whose bottom entry is still the root sentinel `([], -1)` and
whose new top is the node of the nearest earlier matched line with strictly
smaller indentation level (the root when there is none), and consequently
the fold over the whole stream succeeds with a nonempty final stack. -/
theorem c10_hier_stack_root_invariant (stream : String) :
    (∀ j, 0 ≤ levelAt (hierLevels stream) j) ∧
    (∀ n, n < (hierLines stream).length →
      ∃ st, List.foldlM hierStepP initHState ((hierLines stream).take n) = .ok st ∧
        (st.stack.dropWhile fun p => p.2 ≥ levelAt (hierLevels stream) n) ≠ [] ∧
        (st.stack.dropWhile fun p => p.2 ≥ levelAt (hierLevels stream) n).getLastD
          ([], 0) = ([], -1) ∧
        ((st.stack.dropWhile fun p => p.2 ≥ levelAt (hierLevels stream) n).headD
          ([], 0)).1 =
          (match nearestSmaller (hierLevels stream) n with
           | none => []
           | some j => hierPath (hierLines stream) j)) ∧
    ∃ st, List.foldlM esmfHierStep initHState (pySplitNl (pyStrip stream)) = .ok st ∧
      st.stack ≠ [] := by
  have hnn : ∀ j, 0 ≤ levelAt ((hierLines stream).map (·.2.2)) j := fun j =>
    hierLevels_nonneg stream j
  have hlv : (hierLines stream).map (·.2.2) = hierLevels stream := rfl
  refine ⟨hierLevels_nonneg stream, ?_, ?_⟩
  · intro n hn
    obtain ⟨st, hfold, hstack⟩ := hier_fold_chain (hierLines stream) hnn n (Nat.le_of_lt hn)
    rw [hlv] at hstack
    refine ⟨st, hfold, ?_⟩
    have hroot : List.dropWhile (fun p : List String × Int =>
        decide (p.2 ≥ levelAt (hierLevels stream) n)) [([], -1)] = [([], -1)] := by
      rw [show (List.dropWhile (fun p : List String × Int =>
          decide (p.2 ≥ levelAt (hierLevels stream) n)) [([], -1)]) =
          if ((-1 : Int) ≥ levelAt (hierLevels stream) n) then [] else [([], -1)] by
        simp [List.dropWhile_cons]]
      rw [if_neg (by have := hierLevels_nonneg stream n; omega)]
    have hpredeq : ((fun p : List String × Int =>
          decide (p.2 ≥ levelAt (hierLevels stream) n)) ∘
        (fun j => (hierPath (hierLines stream) j, levelAt (hierLevels stream) j))) =
        (fun j => decide (levelAt (hierLevels stream) j ≥
          levelAt (hierLevels stream) n)) := rfl
    rw [hstack, List.dropWhile_append, List.dropWhile_map, hpredeq]
    cases hdw : (visIdx (hierLevels stream) n).dropWhile
        (fun j => levelAt (hierLevels stream) j ≥ levelAt (hierLevels stream) n) with
    | nil =>
      have hns : nearestSmaller (hierLevels stream) n = none := by
        rw [← visIdx_head_nearest, hdw]; rfl
      simp only [hdw, List.map_nil, List.isEmpty_nil, if_true, hroot]
      exact ⟨by simp, rfl, by simp [hns]⟩
    | cons jstar t =>
      have hns : nearestSmaller (hierLevels stream) n = some jstar := by
        rw [← visIdx_head_nearest, hdw]; rfl
      simp only [hdw, List.map_cons, List.isEmpty_cons, if_false, Bool.false_eq_true,
        List.cons_append]
      refine ⟨by simp, ?_, by simp [hns]⟩
      rw [List.getLastD_cons]
      exact getLastD_append_singleton _ _ _
  · obtain ⟨st, hfold, hstack⟩ :=
      hier_fold_chain (hierLines stream) hnn (hierLines stream).length (Nat.le_refl _)
    rw [List.take_length] at hfold
    refine ⟨st, ?_, ?_⟩
    · rw [foldlM_hier_filterMap]
      exact hfold
    · rw [hstack]
      simp

set_option maxRecDepth 400000 in
set_option maxHeartbeats 2000000 in
theorem c10_hier_stack_root_invariant_witness :
    1 < (hierLines esmfDupLog).length ∧
    (∃ st, List.foldlM hierStepP initHState ((hierLines esmfDupLog).take 1) = .ok st ∧
      (st.stack.dropWhile fun p => p.2 ≥ levelAt (hierLevels esmfDupLog) 1) ≠ [] ∧
      (st.stack.dropWhile fun p => p.2 ≥ levelAt (hierLevels esmfDupLog) 1).getLastD
        ([], 0) = ([], -1) ∧
      ((st.stack.dropWhile fun p => p.2 ≥ levelAt (hierLevels esmfDupLog) 1).headD
        ([], 0)).1 =
        (match nearestSmaller (hierLevels esmfDupLog) 1 with
         | none => []
         | some j => hierPath (hierLines esmfDupLog) j)) := by
  have hlen : 1 < (hierLines esmfDupLog).length := by
    have h3 : (hierLines esmfDupLog).length = 3 := by with_unfolding_all rfl
    omega
  exact ⟨hlen, (c10_hier_stack_root_invariant esmfDupLog).2.1 1 hlen⟩

end AccessProfiling
